import Mathlib

/-!
Verification of the drift-box-trade order/position lifecycle engine.

The development shallowly embeds three components of the source:
* `ArcadePerp` — the trading service (`src/src/drift/ArcadePerpService.ts`):
  fill-wait / close-wait polling, order-metadata map, position collection.
* `PnlStream` — the shared live-PnL subscription with reference counting.
* `LiveOrders` — the box lifecycle controller of `src/src/web/pages/L2.tsx`:
  grid occupancy, tick-driven trigger/expiry, event emission.
-/

namespace ArcadePerp

/-- Position direction, mirroring the SDK's `PositionDirection`. -/
inductive PositionDirection where
  | long
  | short
deriving DecidableEq, Repr

/-- Scaling constant `BASE_PRECISION` (1e9) of the SDK, as a rational. -/
def BASE_PRECISION : ℚ := 1000000000

/-- Scaling constant `PRICE_PRECISION` (1e6) of the SDK, as a rational. -/
def PRICE_PRECISION : ℚ := 1000000

/-- Scaling constant `QUOTE_PRECISION` (1e6) of the SDK, as a rational. -/
def QUOTE_PRECISION : ℚ := 1000000

/-- `FILL_TOLERANCE_PERCENT` from ArcadePerpService.ts. -/
def FILL_TOLERANCE_PERCENT : ℤ := 95

/-- `minimumSatisfiedAmount` of `waitForPositionFill`:
`targetAmount.mul(new BN(95)).div(BN_100)`.  BN multiplication is exact
integer multiplication and `BN.div` truncates toward zero. -/
def minimumSatisfiedAmount (targetAmount : ℤ) : ℤ :=
  (targetAmount * FILL_TOLERANCE_PERCENT).tdiv 100

example : minimumSatisfiedAmount 10 = 9 := by decide

/-- Normalized snapshot of a venue position (`PositionSummary` of
ArcadePerpService.ts).  The TS `direction` field is the string
`'LONG' | 'SHORT'` computed from `directionEnum`; both are modelled by
`PositionDirection`.  `baseAssetAmountRaw` is the venue-native integer. -/
structure PositionSummary where
  marketIndex : ℕ
  marketName : String
  dirString : PositionDirection
  directionEnum : PositionDirection
  size : ℚ
  entryPrice : ℚ
  currentPrice : ℚ
  pnl : ℚ
  notional : ℚ
  leverage : ℚ
  liquidationPrice : ℚ
  baseAssetAmountRaw : ℤ
deriving DecidableEq, Repr

/-- The `positions.find(...)` step of one fill-wait poll: first position whose
`directionEnum` matches and whose raw size is at least the minimum amount. -/
def findFillMatch (dir : PositionDirection) (minAmount : ℤ)
    (positions : List PositionSummary) : Option PositionSummary :=
  positions.find? (fun p =>
    p.directionEnum = dir && minAmount ≤ p.baseAssetAmountRaw)

/-- The `waitForPositionFill` polling loop.  Each list element is the outcome
of one per-tick `collectPositions` call: `Except.ok ps` when the poll returns
a snapshot, `Except.error e` when it throws.  The loop body has no try/catch,
so a thrown poll propagates; the list length stands for the number of polls
that fit in the 60 s timeout, and exhausting it returns `none` (timeout). -/
def waitForPositionFillE (dir : PositionDirection) (targetAmount : ℤ) :
    List (Except String (List PositionSummary)) →
      Except String (Option PositionSummary)
  | [] => .ok none
  | poll :: rest =>
    match poll with
    | .error e => .error e
    | .ok positions =>
      match findFillMatch dir (minimumSatisfiedAmount targetAmount) positions with
      | some m => .ok (some m)
      | none => waitForPositionFillE dir targetAmount rest

/-- The `waitForAllPositionsClosed` polling loop, with the same poll-outcome
convention as `waitForPositionFillE`; returns `false` on timeout. -/
def waitForAllPositionsClosedE :
    List (Except String (List PositionSummary)) → Except String Bool
  | [] => .ok false
  | poll :: rest =>
    match poll with
    | .error e => .error e
    | .ok positions =>
      if positions.isEmpty then .ok true else waitForAllPositionsClosedE rest

/-- One entry of the service's `orderMeta` map. -/
structure OrderMetaEntry where
  dir : PositionDirection
  marketIndex : ℕ
deriving DecidableEq, Repr

/-- The `orderMeta` map, as an association list with map-set semantics. -/
def MetaMap : Type := List (String × OrderMetaEntry)

/-- `orderMeta.get(orderId)`. -/
def metaLookup (m : MetaMap) (k : String) : Option OrderMetaEntry :=
  (List.find? (fun e => e.1 = k) m).map (fun e => e.2)

/-- `orderMeta.delete(orderId)`. -/
def metaDelete (m : MetaMap) (k : String) : MetaMap :=
  List.filter (fun e => e.1 ≠ k) m

/-- `orderMeta.set(orderId, v)`. -/
def metaInsert (m : MetaMap) (k : String) (v : OrderMetaEntry) : MetaMap :=
  (k, v) :: metaDelete m k

/-- The target filter of `closePerpPositions`:
`pos.marketIndex === marketIndex && (direction ? pos.directionEnum === direction : true)`. -/
def closeTargets (openPositions : List PositionSummary)
    (dir : Option PositionDirection) (marketIndex : ℕ) : List PositionSummary :=
  openPositions.filter (fun pos =>
    pos.marketIndex = marketIndex &&
      (match dir with
       | some d => pos.directionEnum = d
       | none => true))

/-- The close-submission loop of `closePerpPositions`: positions with a zero
raw amount are skipped, each remaining target yields one `executeTransaction`
whose outcome is the `k`-th element of `outcomes` (`Except.error` when the
transaction throws, `Except.ok (some sig)`/`Except.ok none` otherwise); only
truthy signatures are collected. -/
def submitCloses (outcomes : ℕ → Except String (Option String)) :
    List PositionSummary → ℕ → Except String (List String)
  | [], _ => .ok []
  | p :: rest, k =>
    if p.baseAssetAmountRaw = 0 then submitCloses outcomes rest k
    else
      match outcomes k with
      | .error e => .error e
      | .ok sig =>
        match submitCloses outcomes rest (k + 1) with
        | .error e => .error e
        | .ok sigs =>
          .ok (match sig with
               | some s => s :: sigs
               | none => sigs)

/-- Result record of `closePerpPositions`. -/
structure ClosePerpResult where
  signatures : List String
  remainingPositions : List PositionSummary
deriving DecidableEq, Repr

/-- Environment of one `closeAndCleanup` run: the configured `MARKET_INDEX`,
the snapshot read at the start of `closePerpPositions` (`collect1`), the
per-submission outcomes, the close-wait polls, and the final re-read
(`collect2`). -/
structure CloseEnv where
  MARKET_INDEX : ℕ
  collect1 : List PositionSummary
  submitOutcomes : ℕ → Except String (Option String)
  closePolls : List (Except String (List PositionSummary))
  collect2 : List PositionSummary

/-- `closePerpPositions` of ArcadePerpService.ts: filter targets, early-return
when none, submit a reduce-only close per target, optionally wait for all
positions to close (result ignored), then re-collect. -/
def closePerpPositions (env : CloseEnv) (dir : Option PositionDirection)
    (marketIndex : ℕ) (waitForClose : Bool) : Except String ClosePerpResult :=
  let openPositions := env.collect1
  let targets := closeTargets openPositions dir marketIndex
  if targets.isEmpty then .ok ⟨[], openPositions⟩
  else
    match submitCloses env.submitOutcomes targets 0 with
    | .error e => .error e
    | .ok sigs =>
      match (if waitForClose then waitForAllPositionsClosedE env.closePolls
             else .ok true) with
      | .error e => .error e
      | .ok _ => .ok ⟨sigs, env.collect2⟩

/-- Response record of `handleTrigger` / `handleExpiry`. -/
structure ClosePositionsResponse where
  signatures : List String
  remainingPositions : List PositionSummary
  dir : Option PositionDirection
  marketIndex : ℕ
deriving DecidableEq, Repr

/-- `closeAndCleanup`: look up the order metadata (falling back to the
configured market and no direction filter), close, then delete the metadata
entry and return.  A thrown close propagates before the deletion. -/
def closeAndCleanup (env : CloseEnv) (meta : MetaMap) (orderId : String) :
    Except String (ClosePositionsResponse × MetaMap) :=
  let m := metaLookup meta orderId
  let marketIndex :=
    match m with
    | some e => e.marketIndex
    | none => env.MARKET_INDEX
  match closePerpPositions env (m.map (fun e => e.dir)) marketIndex true with
  | .error e => .error e
  | .ok result =>
    .ok ({ signatures := result.signatures,
           remainingPositions := result.remainingPositions,
           dir := m.map (fun e => e.dir),
           marketIndex := marketIndex }, metaDelete meta orderId)

/-- `handleTrigger(orderId)` forwards to `closeAndCleanup`. -/
def handleTrigger (env : CloseEnv) (meta : MetaMap) (orderId : String) :
    Except String (ClosePositionsResponse × MetaMap) :=
  closeAndCleanup env meta orderId

/-- `handleExpiry(orderId)` forwards to `closeAndCleanup`. -/
def handleExpiry (env : CloseEnv) (meta : MetaMap) (orderId : String) :
    Except String (ClosePositionsResponse × MetaMap) :=
  closeAndCleanup env meta orderId

/-- `DEFAULT_POSITION_SIZE` (0.01). -/
def DEFAULT_POSITION_SIZE : ℚ := 1 / 100

/-- `DEFAULT_LIMIT_ORDER_SLIPPAGE_BPS` (10). -/
def DEFAULT_LIMIT_ORDER_SLIPPAGE_BPS : ℚ := 10

/-- `PlaceLimitOrderRequest` of ArcadePerpService.ts (`targetPrice` is a
required field there). -/
structure PlaceLimitOrderRequest where
  orderId : String
  targetPrice : ℚ
  dir : Option PositionDirection
  size : Option ℚ
  slippageBps : Option ℚ
  waitForFill : Option Bool
  marketIndex : Option ℕ

/-- `PlaceLimitOrderResponse` of ArcadePerpService.ts. -/
structure PlaceLimitOrderResponse where
  signature : Option String
  position : Option PositionSummary
  dir : PositionDirection
  marketIndex : ℕ
deriving DecidableEq, Repr

/-- Environment of one `placeLimitOrder` run: the configured `MARKET_INDEX`,
the oracle read (`Except.error` when the drift client throws, `Except.ok none`
when it returns no data), the limit-order submission outcome, and the
fill-wait polls. -/
structure PlaceEnv where
  MARKET_INDEX : ℕ
  oracle : Except String (Option ℚ)
  submitResult : Except String (Option String)
  polls : List (Except String (List PositionSummary))

/-- `inferDirection`: LONG when the target price is at least the oracle price,
SHORT otherwise; LONG when the oracle read returns no data or throws. -/
def inferDirection (oracle : Except String (Option ℚ)) (targetPrice : ℚ) :
    PositionDirection :=
  match oracle with
  | .error _ => .long
  | .ok none => .long
  | .ok (some oraclePrice) =>
    if oraclePrice ≤ targetPrice then .long else .short

/-- `resolveLimitPrice`: an explicit price is used verbatim; otherwise the
oracle price adjusted by slippage in the direction's favor, with a thrown or
missing oracle read propagated as an error. -/
def resolveLimitPrice (oracle : Except String (Option ℚ))
    (dir : PositionDirection) (explicitPrice : Option ℚ) (slippagePct : ℚ) :
    Except String ℚ :=
  match explicitPrice with
  | some p => .ok p
  | none =>
    match oracle with
    | .error e => .error e
    | .ok none => .error "Oracle data unavailable. Cannot place limit order."
    | .ok (some oraclePrice) =>
      .ok (if dir = .long then oraclePrice * (1 + slippagePct)
           else oraclePrice * max 0 (1 - slippagePct))

/-- The raw base amount of a request:
`Math.round(baseSize * BASE_PRECISION.toNumber())`. -/
def requestAmountRaw (req : PlaceLimitOrderRequest) : ℤ :=
  round ((req.size.getD DEFAULT_POSITION_SIZE) * BASE_PRECISION)

/-- The direction used by a request: explicit, else inferred. -/
def requestDirection (env : PlaceEnv) (req : PlaceLimitOrderRequest) :
    PositionDirection :=
  req.dir.getD (inferDirection env.oracle req.targetPrice)

/-- The market index used by a request: explicit, else the configured one. -/
def requestMarketIndex (env : PlaceEnv) (req : PlaceLimitOrderRequest) : ℕ :=
  req.marketIndex.getD env.MARKET_INDEX

/-- `placeLimitOrder` of ArcadePerpService.ts: resolve the market, direction,
size and limit price, submit the non-market order, optionally block on the
fill-wait loop, record the order metadata, and return. -/
def placeLimitOrder (env : PlaceEnv) (meta : MetaMap)
    (req : PlaceLimitOrderRequest) :
    Except String (PlaceLimitOrderResponse × MetaMap) :=
  let marketIndex := requestMarketIndex env req
  let dir := requestDirection env req
  let slippageBps := req.slippageBps.getD DEFAULT_LIMIT_ORDER_SLIPPAGE_BPS
  let amountRaw := requestAmountRaw req
  let slippagePct := slippageBps / 10000
  match resolveLimitPrice env.oracle dir (some req.targetPrice) slippagePct with
  | .error e => .error e
  | .ok _limitPrice =>
    match env.submitResult with
    | .error e => .error e
    | .ok signature =>
      match (if req.waitForFill.getD true then
               waitForPositionFillE dir amountRaw env.polls
             else .ok none) with
      | .error e => .error e
      | .ok position =>
        .ok ({ signature := signature, position := position, dir := dir,
               marketIndex := marketIndex },
             metaInsert meta req.orderId ⟨dir, marketIndex⟩)

/-- A raw venue position record as found in the authority user-account cache
(`userData.openPerpPositions`).  `venueMarketIndex` is the market the position
is actually in; `collectPositions` never reads it. -/
structure RawPerpPosition where
  venueMarketIndex : ℕ
  baseSizeRaw : ℤ
  entryPriceRaw : ℤ
  liquidationPriceRaw : ℤ
  notionalRaw : ℤ
  markPnlRaw : ℤ
  feesAndFundingRaw : ℤ
  dir : PositionDirection
deriving DecidableEq, Repr

/-- The cached user-account data read by `collectPositions`. -/
structure UserData where
  openPerpPositions : List RawPerpPosition
  totalInitialMarginRaw : ℤ
deriving DecidableEq, Repr

/-- Environment of `collectPositions`: the configured `MARKET_INDEX`, the raw
(NUL-padded) name of the configured perp market, and the oracle price of the
configured market (`none` when `getOracleDataForPerpMarket` returns nothing). -/
structure CollectEnv where
  MARKET_INDEX : ℕ
  perpMarketRawName : String
  oraclePriceRaw : Option ℤ
deriving Repr

/-- `Buffer.from(perpMarket.name).toString('utf8').replace(/\0/g, '').trim()`. -/
def decodeMarketName (raw : String) : String :=
  (String.mk (raw.toList.filter (fun c => c ≠ Char.ofNat 0))).trim

/-- The body of the `collectPositions` loop for one raw position: every field
that names a market is taken from the configured `MARKET_INDEX`, not from the
position's own market. -/
def summarize (env : CollectEnv) (userData : UserData)
    (p : RawPerpPosition) : PositionSummary :=
  let marketName := decodeMarketName env.perpMarketRawName
  let currentPrice :=
    match env.oraclePriceRaw with
    | some r => (r : ℚ) / PRICE_PRECISION
    | none => 0
  let size := (p.baseSizeRaw : ℚ) / BASE_PRECISION
  let entryPrice := (p.entryPriceRaw : ℚ) / PRICE_PRECISION
  let liquidationPrice := (p.liquidationPriceRaw : ℚ) / PRICE_PRECISION
  let notional := (p.notionalRaw : ℚ) / QUOTE_PRECISION
  let markBasedPnl := (p.markPnlRaw : ℚ) / QUOTE_PRECISION
  let feesAndFundingPnl := (p.feesAndFundingRaw : ℚ) / QUOTE_PRECISION
  let totalCollateral := (userData.totalInitialMarginRaw : ℚ) / QUOTE_PRECISION
  { marketIndex := env.MARKET_INDEX,
    marketName := marketName,
    dirString := p.dir,
    directionEnum := p.dir,
    size := |size|,
    entryPrice := entryPrice,
    currentPrice := currentPrice,
    pnl := markBasedPnl + feesAndFundingPnl,
    notional := notional,
    leverage := if 0 < totalCollateral then notional / totalCollateral else 0,
    liquidationPrice := liquidationPrice,
    baseAssetAmountRaw := |p.baseSizeRaw| }

/-- `collectPositions`: an absent (cold) cache yields the empty list; a warm
cache yields one summary per raw open position. -/
def collectPositions (env : CollectEnv) (cache : Option UserData) :
    List PositionSummary :=
  match cache with
  | none => []
  | some u => u.openPerpPositions.map (summarize env u)

/-! Lemmas about the fill-wait loop and the metadata map. -/

theorem waitForPositionFillE_cons_ok (dir : PositionDirection)
    (targetAmount : ℤ) (positions : List PositionSummary)
    (rest : List (Except String (List PositionSummary))) :
    waitForPositionFillE dir targetAmount (Except.ok positions :: rest) =
      match findFillMatch dir (minimumSatisfiedAmount targetAmount) positions with
      | some m => .ok (some m)
      | none => waitForPositionFillE dir targetAmount rest := rfl

theorem waitForPositionFillE_eq_none (dir : PositionDirection)
    (targetAmount : ℤ) (polls : List (Except String (List PositionSummary)))
    (h : ∀ e ∈ polls, ∃ ps, e = Except.ok ps ∧
      findFillMatch dir (minimumSatisfiedAmount targetAmount) ps = none) :
    waitForPositionFillE dir targetAmount polls = .ok none := by
  induction polls with
  | nil => rfl
  | cons poll rest ih =>
    obtain ⟨ps, hps, hnone⟩ := h poll (List.mem_cons_self _ _)
    subst hps
    rw [waitForPositionFillE_cons_ok, hnone]
    exact ih (fun e he => h e (List.mem_cons_of_mem _ he))

theorem metaLookup_delete (m : MetaMap) (k : String) :
    metaLookup (metaDelete m k) k = none := by
  unfold metaLookup metaDelete
  rw [Option.map_eq_none', List.find?_eq_none]
  intro x hx
  have := (List.mem_filter.mp hx).2
  simpa using this

/-- C1 (counterexample): the code accepts a polled position with raw size 9
against a requested raw size 10, although `9 < 0.95 * 10`; the claim's
acceptance condition `0.95*S ≤ f` (and its rejection condition `f < 0.95*S`)
is therefore not what `waitForPositionFill` implements. -/
theorem fill_tolerance_strict_fails :
    waitForPositionFillE .long 10
        [Except.ok [{ marketIndex := 0, marketName := "SOL-PERP",
                      dirString := .long, directionEnum := .long, size := 0,
                      entryPrice := 0, currentPrice := 0, pnl := 0,
                      notional := 0, leverage := 0, liquidationPrice := 0,
                      baseAssetAmountRaw := 9 }]] =
      Except.ok (some { marketIndex := 0, marketName := "SOL-PERP",
                        dirString := .long, directionEnum := .long, size := 0,
                        entryPrice := 0, currentPrice := 0, pnl := 0,
                        notional := 0, leverage := 0, liquidationPrice := 0,
                        baseAssetAmountRaw := 9 }) ∧
      ((9 : ℚ) < (95 / 100) * 10) := by
  exact ⟨rfl, by norm_num⟩

/-- C1 (amended): a polled position is accepted as filled exactly when its
direction matches and its raw size is at least the integer threshold
`(S * 95).tdiv 100` (truncated BN division, i.e. `floor(S*95/100)` for
non-negative `S`); otherwise the loop keeps polling. -/
theorem fill_tolerance_floor (dir : PositionDirection) (S : ℤ)
    (p : PositionSummary) (rest : List (Except String (List PositionSummary))) :
    waitForPositionFillE dir S (Except.ok [p] :: rest) =
      if p.directionEnum = dir ∧ (S * 95).tdiv 100 ≤ p.baseAssetAmountRaw then
        Except.ok (some p)
      else waitForPositionFillE dir S rest := by
  rw [waitForPositionFillE_cons_ok]
  unfold findFillMatch minimumSatisfiedAmount FILL_TOLERANCE_PERCENT
  by_cases h : p.directionEnum = dir ∧ (S * 95).tdiv 100 ≤ p.baseAssetAmountRaw
  · rw [if_pos h]
    have : (p.directionEnum = dir && decide ((S * 95).tdiv 100 ≤ p.baseAssetAmountRaw)) = true := by
      simp [h.1, h.2]
    simp [List.find?, this]
  · rw [if_neg h]
    have : (p.directionEnum = dir && decide ((S * 95).tdiv 100 ≤ p.baseAssetAmountRaw)) = false := by
      rcases not_and_or.mp h with h1 | h2
      · simp [h1]
      · simp [h2]
    simp [List.find?, this]

/-- C5: when the submission succeeds and every fill-wait poll returns a
snapshot with no matching position, `placeLimitOrder` with `waitForFill`
enabled returns normally with `position = none` and the submission signature,
rather than throwing. -/
theorem placeLimitOrder_fill_timeout (env : PlaceEnv) (meta : MetaMap)
    (req : PlaceLimitOrderRequest) (sig : Option String)
    (hw : req.waitForFill.getD true = true)
    (hsub : env.submitResult = .ok sig)
    (hpolls : ∀ e ∈ env.polls, ∃ ps, e = Except.ok ps ∧
      findFillMatch (requestDirection env req)
        (minimumSatisfiedAmount (requestAmountRaw req)) ps = none) :
    placeLimitOrder env meta req =
      .ok ({ signature := sig, position := none,
             dir := requestDirection env req,
             marketIndex := requestMarketIndex env req },
           metaInsert meta req.orderId
             ⟨requestDirection env req, requestMarketIndex env req⟩) := by
  unfold placeLimitOrder resolveLimitPrice
  rw [hsub, hw]
  simp only [if_true]
  rw [waitForPositionFillE_eq_none _ _ _ hpolls]

/-- Witness for C5 at a concrete request whose two polls both come back
empty. -/
theorem placeLimitOrder_fill_timeout_witness :
    placeLimitOrder
        { MARKET_INDEX := 0, oracle := .ok (some 100),
          submitResult := .ok (some "sig"), polls := [.ok [], .ok []] }
        []
        { orderId := "o1", targetPrice := 101, dir := none, size := none,
          slippageBps := none, waitForFill := none, marketIndex := none } =
      .ok ({ signature := some "sig", position := none,
             dir := .long, marketIndex := 0 },
           metaInsert [] "o1" ⟨.long, 0⟩) := by
  exact placeLimitOrder_fill_timeout _ _ _ (some "sig") rfl rfl
    (by intro e he
        simp only [List.mem_cons, List.not_mem_nil, or_false] at he
        rcases he with h | h <;> exact ⟨[], h, rfl⟩)

/-- C6: when `handleTrigger(orderId)` completes (returns, whatever the close
outcome), the metadata entry is gone, and a second `handleTrigger` (or
`handleExpiry`, the same operation) finds no metadata and performs the
fallback close against the configured default market with no direction
filter, completing exactly when that close completes. -/
theorem handleTrigger_forgets (env env2 : CloseEnv) (meta : MetaMap)
    (orderId : String) (resp : ClosePositionsResponse) (meta1 : MetaMap)
    (h : handleTrigger env meta orderId = .ok (resp, meta1)) :
    metaLookup meta1 orderId = none ∧
    handleExpiry env2 meta1 orderId = handleTrigger env2 meta1 orderId ∧
    handleTrigger env2 meta1 orderId =
      (match closePerpPositions env2 none env2.MARKET_INDEX true with
       | .error e => .error e
       | .ok r => .ok ({ signatures := r.signatures,
                         remainingPositions := r.remainingPositions,
                         dir := none, marketIndex := env2.MARKET_INDEX },
                       metaDelete meta1 orderId)) := by
  have hmeta1 : meta1 = metaDelete meta orderId := by
    unfold handleTrigger closeAndCleanup at h
    simp only [] at h
    rcases hc : closePerpPositions env
        ((metaLookup meta orderId).map (fun e => e.dir))
        (match metaLookup meta orderId with
         | some e => e.marketIndex
         | none => env.MARKET_INDEX) true with e | r
    · rw [hc] at h; exact absurd h (by simp)
    · rw [hc] at h
      simp only [Except.ok.injEq, Prod.mk.injEq] at h
      exact h.2.symm
  have hnone : metaLookup meta1 orderId = none := by
    rw [hmeta1]; exact metaLookup_delete meta orderId
  refine ⟨hnone, rfl, ?_⟩
  unfold handleTrigger closeAndCleanup
  rw [hnone]
  rfl

/-- Witness for C6: a concrete run with one stored metadata entry and no open
positions. -/
theorem handleTrigger_forgets_witness :
    metaLookup (metaDelete [("a", (⟨.long, 0⟩ : OrderMetaEntry))] "a") "a" = none ∧
    handleExpiry
        { MARKET_INDEX := 7, collect1 := [],
          submitOutcomes := fun _ => .ok none, closePolls := [],
          collect2 := [] }
        (metaDelete [("a", (⟨.long, 0⟩ : OrderMetaEntry))] "a") "a" =
      handleTrigger
        { MARKET_INDEX := 7, collect1 := [],
          submitOutcomes := fun _ => .ok none, closePolls := [],
          collect2 := [] }
        (metaDelete [("a", (⟨.long, 0⟩ : OrderMetaEntry))] "a") "a" := by
  have h := handleTrigger_forgets
    { MARKET_INDEX := 3, collect1 := [],
      submitOutcomes := fun _ => .ok none, closePolls := [], collect2 := [] }
    { MARKET_INDEX := 7, collect1 := [],
      submitOutcomes := fun _ => .ok none, closePolls := [], collect2 := [] }
    [("a", ⟨.long, 0⟩)] "a"
    { signatures := [], remainingPositions := [], dir := some .long,
      marketIndex := 0 }
    (metaDelete [("a", ⟨.long, 0⟩)] "a") rfl
  exact ⟨h.1, h.2.1⟩

/-- C8 (counterexample): with a first poll that throws and a second poll that
contains the fill, `placeLimitOrder` surfaces the per-tick poll failure to its
caller instead of swallowing it and retrying — the fill-wait loop has no
per-attempt catch. -/
theorem poll_failure_surfaces :
    placeLimitOrder
        { MARKET_INDEX := 0, oracle := .ok (some 100),
          submitResult := .ok (some "sig"),
          polls := [.error "rpc failure",
                    .ok [{ marketIndex := 0, marketName := "SOL-PERP",
                           dirString := .long, directionEnum := .long,
                           size := 1 / 100, entryPrice := 100,
                           currentPrice := 100, pnl := 0, notional := 1,
                           leverage := 1, liquidationPrice := 0,
                           baseAssetAmountRaw := 10000000 }]] }
        []
        { orderId := "o1", targetPrice := 101, dir := none, size := none,
          slippageBps := none, waitForFill := none, marketIndex := none } =
      .error "rpc failure" ∧
    findFillMatch .long (minimumSatisfiedAmount 10000000)
        [{ marketIndex := 0, marketName := "SOL-PERP", dirString := .long,
           directionEnum := .long, size := 1 / 100, entryPrice := 100,
           currentPrice := 100, pnl := 0, notional := 1, leverage := 1,
           liquidationPrice := 0, baseAssetAmountRaw := 10000000 }] =
      some { marketIndex := 0, marketName := "SOL-PERP", dirString := .long,
             directionEnum := .long, size := 1 / 100, entryPrice := 100,
             currentPrice := 100, pnl := 0, notional := 1, leverage := 1,
             liquidationPrice := 0, baseAssetAmountRaw := 10000000 } := by
  constructor
  · rfl
  · rfl

/-- C8 (amended): a per-tick poll that finds the account cache cold yields an
empty snapshot and the fill-wait loop simply retries on the next interval,
bounded by the poll-list length (the timeout); but a poll that throws is not
caught — both the fill-wait and close-wait loops propagate it. -/
theorem poll_resilience_amended (cenv : CollectEnv) (dir : PositionDirection)
    (a : ℤ) (e : String)
    (rest : List (Except String (List PositionSummary))) :
    waitForPositionFillE dir a (Except.ok (collectPositions cenv none) :: rest) =
      waitForPositionFillE dir a rest ∧
    waitForPositionFillE dir a (Except.error e :: rest) = Except.error e ∧
    waitForAllPositionsClosedE (Except.error e :: rest) = Except.error e := by
  exact ⟨rfl, rfl, rfl⟩

/-- C9: every `PositionSummary` produced by `collectPositions` carries the
configured `MARKET_INDEX`, the configured market's (decoded) name and the
configured market's oracle price, whatever market the raw venue position is
actually in; consequently the close filter of `closePerpPositions` can only
match when its `marketIndex` argument equals the configured one. -/
theorem collectPositions_configured_market (env : CollectEnv)
    (cache : Option UserData) (p : PositionSummary)
    (hp : p ∈ collectPositions env cache) :
    p.marketIndex = env.MARKET_INDEX ∧
    p.marketName = decodeMarketName env.perpMarketRawName ∧
    p.currentPrice = (match env.oraclePriceRaw with
                      | some r => (r : ℚ) / PRICE_PRECISION
                      | none => 0) ∧
    ∀ (d : Option PositionDirection) (mi : ℕ) (q : PositionSummary),
      q ∈ closeTargets (collectPositions env cache) d mi →
        mi = env.MARKET_INDEX := by
  have hfields : ∀ (q : PositionSummary), q ∈ collectPositions env cache →
      q.marketIndex = env.MARKET_INDEX ∧
      q.marketName = decodeMarketName env.perpMarketRawName ∧
      q.currentPrice = (match env.oraclePriceRaw with
                        | some r => (r : ℚ) / PRICE_PRECISION
                        | none => 0) := by
    intro q hq
    cases cache with
    | none => simp [collectPositions] at hq
    | some u =>
      simp only [collectPositions, List.mem_map] at hq
      obtain ⟨raw, _, hraw⟩ := hq
      subst hraw
      exact ⟨rfl, rfl, rfl⟩
  obtain ⟨h1, h2, h3⟩ := hfields p hp
  refine ⟨h1, h2, h3, ?_⟩
  intro d mi q hq
  unfold closeTargets at hq
  have hmem := List.mem_filter.mp hq
  have hqmi : q.marketIndex = mi := by
    have := hmem.2
    simp only [Bool.and_eq_true, decide_eq_true_eq] at this
    exact this.1
  have := (hfields q hmem.1).1
  rw [← hqmi, this]

/-- Witness for C9 at a concrete cache holding one raw position that actually
sits in venue market 5 while the configured index is 0. -/
theorem collectPositions_configured_market_witness :
    (ArcadePerp.summarize
        { MARKET_INDEX := 0, perpMarketRawName := "SOL-PERP",
          oraclePriceRaw := some 100000000 }
        { openPerpPositions := [{ venueMarketIndex := 5, baseSizeRaw := -7,
                                  entryPriceRaw := 1, liquidationPriceRaw := 2,
                                  notionalRaw := 3, markPnlRaw := 4,
                                  feesAndFundingRaw := 5, dir := .short }],
          totalInitialMarginRaw := 10 }
        { venueMarketIndex := 5, baseSizeRaw := -7, entryPriceRaw := 1,
          liquidationPriceRaw := 2, notionalRaw := 3, markPnlRaw := 4,
          feesAndFundingRaw := 5, dir := .short }).marketIndex = 0 := by
  have h := collectPositions_configured_market
    { MARKET_INDEX := 0, perpMarketRawName := "SOL-PERP",
      oraclePriceRaw := some 100000000 }
    (some { openPerpPositions := [{ venueMarketIndex := 5, baseSizeRaw := -7,
                                    entryPriceRaw := 1,
                                    liquidationPriceRaw := 2,
                                    notionalRaw := 3, markPnlRaw := 4,
                                    feesAndFundingRaw := 5, dir := .short }],
            totalInitialMarginRaw := 10 })
    (ArcadePerp.summarize
      { MARKET_INDEX := 0, perpMarketRawName := "SOL-PERP",
        oraclePriceRaw := some 100000000 }
      { openPerpPositions := [{ venueMarketIndex := 5, baseSizeRaw := -7,
                                entryPriceRaw := 1, liquidationPriceRaw := 2,
                                notionalRaw := 3, markPnlRaw := 4,
                                feesAndFundingRaw := 5, dir := .short }],
        totalInitialMarginRaw := 10 }
      { venueMarketIndex := 5, baseSizeRaw := -7, entryPriceRaw := 1,
        liquidationPriceRaw := 2, notionalRaw := 3, markPnlRaw := 4,
        feesAndFundingRaw := 5, dir := .short })
    (by simp [collectPositions])
  exact h.1

end ArcadePerp

namespace PnlStream

/-- `PerpPnlUpdate` of the PnL stream module. -/
structure PerpPnlUpdate where
  markPrice : ℚ
  oraclePrice : ℚ
  pnlUsd : ℚ
  pnlPct : ℚ
  hasPosition : Bool
deriving DecidableEq, Repr

/-- `defaultState` of the PnL stream module. -/
def defaultState : PerpPnlUpdate :=
  { markPrice := 0, oraclePrice := 0, pnlUsd := 0, pnlPct := 0,
    hasPosition := false }

/-- The module-level mutable state of the PnL stream: the reference count, the
`started` flag, the three underlying subscriptions (modelled as present/null
flags), the published snapshot, and one `released` flag per handed-out
release closure (handle `h` is the `h`-th acquire). -/
structure PnlState where
  refCount : ℤ
  started : Bool
  markPriceSub : Bool
  oraclePriceSub : Bool
  userSub : Bool
  currentState : PerpPnlUpdate
  released : List Bool
deriving DecidableEq, Repr

/-- The state before any acquire. -/
def initState : PnlState :=
  { refCount := 0, started := false, markPriceSub := false,
    oraclePriceSub := false, userSub := false, currentState := defaultState,
    released := [] }

/-- `startInternal`: a no-op when already started, otherwise start the three
underlying subscriptions and set `started`. -/
def startInternal (s : PnlState) : PnlState :=
  if s.started then s
  else { s with markPriceSub := true, oraclePriceSub := true, userSub := true,
                started := true }

/-- `stopInternal`: a no-op when not started, otherwise unsubscribe and null
the three subscriptions, clear `started`, and reset the published snapshot to
`defaultState`. -/
def stopInternal (s : PnlState) : PnlState :=
  if s.started then
    { s with markPriceSub := false, oraclePriceSub := false, userSub := false,
             started := false, currentState := defaultState }
  else s

/-- `acquirePerpPnlStream`: increment the reference count, start the
underlying subscriptions if needed, and hand out a fresh release closure
(whose handle is the index of its `released` flag). -/
def acquire (s : PnlState) : PnlState :=
  startInternal { s with refCount := s.refCount + 1,
                         released := s.released ++ [false] }

/-- The release closure returned by `acquirePerpPnlStream` for handle `h`: a
second call is a no-op; otherwise mark the closure released, decrement the
reference count (clamped at zero), and tear everything down on reaching
zero. -/
def release (h : ℕ) (s : PnlState) : PnlState :=
  if hlt : h < s.released.length then
    if s.released.get ⟨h, hlt⟩ then s
    else
      let s1 := { s with released := s.released.set h true,
                         refCount := max 0 (s.refCount - 1) }
      if s1.refCount = 0 then stopInternal s1 else s1
  else s

/-- `n` successive `acquire()` calls. -/
def applyAcquires : ℕ → PnlState → PnlState
  | 0, s => s
  | n + 1, s => applyAcquires n (acquire s)

/-- Invoke the release closures with the given handles, in order. -/
def applyReleases (hs : List ℕ) (s : PnlState) : PnlState :=
  hs.foldl (fun s h => release h s) s

/-- The invariant tying the reference count to the unreleased closures: the
count equals the number of unreleased handles, `started` tracks its
positivity, the three subscriptions track `started`, and a stopped stream
publishes the default snapshot. -/
structure Inv (s : PnlState) : Prop where
  count : s.refCount = (s.released.count false : ℤ)
  smark : s.markPriceSub = s.started
  soracle : s.oraclePriceSub = s.started
  suser : s.userSub = s.started
  sstarted : s.started = decide (0 < s.released.count false)
  snap : s.started = false → s.currentState = defaultState

theorem count_false_set_true (l : List Bool) (i : ℕ) (hi : i < l.length)
    (hf : l.get ⟨i, hi⟩ = false) :
    (l.set i true).count false + 1 = l.count false := by
  induction l generalizing i with
  | nil => cases hi
  | cons b t ih =>
    cases i with
    | zero =>
      have hb : b = false := hf
      subst hb
      simp [List.count_cons]
    | succ j =>
      have hj : j < t.length := Nat.lt_of_succ_lt_succ hi
      have hg : t.get ⟨j, hj⟩ = false := hf
      have := ih j hj hg
      have hset : (b :: t).set (j + 1) true = b :: t.set j true := rfl
      rw [hset]
      simp only [List.count_cons]
      omega

theorem count_false_pos (l : List Bool) (i : ℕ) (hi : i < l.length)
    (hf : l.get ⟨i, hi⟩ = false) : 0 < l.count false := by
  refine List.count_pos_iff.mpr ?_
  rw [← hf]; exact l.get_mem _ _

theorem inv_initState : Inv initState := by
  constructor <;> simp [initState]

theorem inv_acquire (s : PnlState) (h : Inv s) : Inv (acquire s) := by
  obtain ⟨hc, hm, ho, hu, hst, hsn⟩ := h
  unfold acquire startInternal
  by_cases hb : s.started
  · have hpos : 0 < s.released.count false := by
      rw [hb] at hst; exact of_decide_eq_true hst.symm
    constructor <;> simp [hb, hm, ho, hu, hc, List.count_append]
  · constructor <;>
      simp [hb, hm, ho, hu, hc, List.count_append]

theorem release_released_of_fresh (s : PnlState) (h : ℕ)
    (hlt : h < s.released.length) (hf : s.released.get ⟨h, hlt⟩ = false) :
    (release h s).released = s.released.set h true ∧
    (release h s).refCount = max 0 (s.refCount - 1) := by
  unfold release
  rw [dif_pos hlt, if_neg (by rw [hf]; exact Bool.false_ne_true)]
  by_cases hz : max 0 (s.refCount - 1) = 0
  · simp only [hz, if_pos rfl]
    unfold stopInternal
    by_cases hb : s.started <;> simp [hb, hz]
  · simp [hz]

theorem inv_release (s : PnlState) (h : ℕ) (hInv : Inv s) :
    Inv (release h s) := by
  obtain ⟨hc, hm, ho, hu, hst, hsn⟩ := hInv
  unfold release
  by_cases hlt : h < s.released.length
  · rw [dif_pos hlt]
    by_cases hg : s.released.get ⟨h, hlt⟩
    · rw [if_pos hg]; exact ⟨hc, hm, ho, hu, hst, hsn⟩
    · rw [if_neg hg]
      have hg0 : s.released.get ⟨h, hlt⟩ = false := by
        exact Bool.eq_false_iff.mpr hg
      have hcnt := count_false_set_true s.released h hlt hg0
      have hpos := count_false_pos s.released h hlt hg0
      have hrc : s.refCount = (s.released.count false : ℤ) := hc
      have hmax : max 0 (s.refCount - 1) =
          ((s.released.set h true).count false : ℤ) := by
        rw [hrc]; omega
      by_cases hz : ((s.released.set h true).count false : ℕ) = 0
      · have hz2 : max 0 (s.refCount - 1) = 0 := by rw [hmax]; omega
        simp only [hz2, if_pos rfl]
        have hstTrue : s.started = true := by
          rw [hst]; simpa using hpos
        unfold stopInternal
        rw [if_pos hstTrue]
        constructor <;> simp [hz, hmax, hz2]
      · have hz2 : ¬ max 0 (s.refCount - 1) = 0 := by
          rw [hmax]; omega
        simp only [if_neg hz2]
        have hstTrue : s.started = true := by
          rw [hst]; simpa using hpos
        constructor <;>
          simp [hmax, hm, ho, hu, hstTrue, hsn, Nat.pos_of_ne_zero hz]
  · rw [dif_neg hlt]; exact ⟨hc, hm, ho, hu, hst, hsn⟩

theorem applyAcquires_spec (n : ℕ) (s : PnlState) (h : Inv s) :
    Inv (applyAcquires n s) ∧
    (applyAcquires n s).released = s.released ++ List.replicate n false := by
  induction n generalizing s with
  | zero => exact ⟨h, by simp [applyAcquires]⟩
  | succ m ih =>
    obtain ⟨h1, h2⟩ := ih (acquire s) (inv_acquire s h)
    refine ⟨h1, ?_⟩
    rw [applyAcquires, h2]
    have : (acquire s).released = s.released ++ [false] := by
      unfold acquire startInternal
      by_cases hb : s.started <;> simp [hb]
    rw [this, List.append_assoc]
    simp [List.replicate_succ]

theorem getElem?_fresh (l : List Bool) (i : ℕ) (hf : l[i]? = some false) :
    ∃ hh : i < l.length, l.get ⟨i, hh⟩ = false := by
  obtain ⟨hh, he⟩ := List.getElem?_eq_some.mp hf
  exact ⟨hh, by simpa using he⟩

theorem applyReleases_spec (hs : List ℕ) (s : PnlState) (hInv : Inv s)
    (hnd : hs.Nodup)
    (hvalid : ∀ h ∈ hs, s.released[h]? = some false) :
    Inv (applyReleases hs s) ∧
    (applyReleases hs s).released.count false + hs.length =
      s.released.count false ∧
    (applyReleases hs s).released.length = s.released.length ∧
    (∀ h2, h2 ∉ hs → s.released[h2]? = some false →
      (applyReleases hs s).released[h2]? = some false) := by
  induction hs generalizing s with
  | nil =>
    exact ⟨hInv, by simp [applyReleases], by simp [applyReleases],
      fun h2 _ hf => hf⟩
  | cons h t ih =>
    obtain ⟨hh, hf⟩ := getElem?_fresh _ _ (hvalid h (List.mem_cons_self _ _))
    obtain ⟨hrel, _⟩ := release_released_of_fresh s h hh hf
    have hInv1 : Inv (release h s) := inv_release s h hInv
    have hlen1 : (release h s).released.length = s.released.length := by
      rw [hrel]; simp
    have hcnt1 : (release h s).released.count false + 1 =
        s.released.count false := by
      rw [hrel]; exact count_false_set_true s.released h hh hf
    have hndt : t.Nodup := hnd.of_cons
    have hnm : h ∉ t := by
      intro hm; exact (List.nodup_cons.mp hnd).1 hm
    have hvalidt : ∀ h2 ∈ t, (release h s).released[h2]? = some false := by
      intro h2 hm
      have hne : h ≠ h2 := by
        intro he; subst he; exact hnm hm
      rw [hrel, List.getElem?_set_ne hne]
      exact hvalid h2 (List.mem_cons_of_mem _ hm)
    obtain ⟨ih1, ih2, ih3, ih4⟩ := ih (release h s) hInv1 hndt hvalidt
    have happ : applyReleases (h :: t) s = applyReleases t (release h s) := rfl
    refine ⟨by rw [happ]; exact ih1, ?_, ?_, ?_⟩
    · rw [happ]
      simp only [List.length_cons]
      omega
    · rw [happ, ih3, hlen1]
    · intro h2 hnmem hf2
      rw [happ]
      have hne : h ≠ h2 := by
        intro he; subst he; exact hnmem (List.mem_cons_self _ _)
      have hnt : h2 ∉ t := fun hm => hnmem (List.mem_cons_of_mem _ hm)
      refine ih4 h2 hnt ?_
      rw [hrel, List.getElem?_set_ne hne]
      exact hf2

/-- C7: for every `N ≥ 1`, after `N` acquires and any `N-1` distinct releases
the three underlying subscriptions (mark price, oracle price, user account)
are still active; the `N`-th release tears all of them down and resets the
published snapshot to the default value, whose `hasPosition` is `false` and
whose `pnlUsd` is `0`. -/
theorem pnl_reference_counting (N : ℕ) (hN : 1 ≤ N) (hs : List ℕ)
    (hnd : hs.Nodup) (hslt : ∀ h ∈ hs, h < N) (hslen : hs.length = N - 1)
    (hLast : ℕ) (hLastLt : hLast < N) (hLastNm : hLast ∉ hs) :
    (applyReleases hs (applyAcquires N initState)).markPriceSub = true ∧
    (applyReleases hs (applyAcquires N initState)).oraclePriceSub = true ∧
    (applyReleases hs (applyAcquires N initState)).userSub = true ∧
    (release hLast (applyReleases hs (applyAcquires N initState))).markPriceSub
      = false ∧
    (release hLast (applyReleases hs (applyAcquires N initState))).oraclePriceSub
      = false ∧
    (release hLast (applyReleases hs (applyAcquires N initState))).userSub
      = false ∧
    (release hLast (applyReleases hs (applyAcquires N initState))).currentState
      = defaultState ∧
    (release hLast (applyReleases hs
        (applyAcquires N initState))).currentState.hasPosition = false ∧
    (release hLast (applyReleases hs
        (applyAcquires N initState))).currentState.pnlUsd = 0 := by
  obtain ⟨hInv1, hrel1⟩ := applyAcquires_spec N initState inv_initState
  have hrel1r : (applyAcquires N initState).released = List.replicate N false := by
    rw [hrel1]; simp [initState]
  have hvalid : ∀ h ∈ hs,
      (applyAcquires N initState).released[h]? = some false := by
    intro h hm
    rw [hrel1r]
    simp [List.getElem?_replicate, hslt h hm]
  obtain ⟨hInv2, hcnt2, hlen2, hpres⟩ :=
    applyReleases_spec hs (applyAcquires N initState) hInv1 hnd hvalid
  have hcnt1 : (applyAcquires N initState).released.count false = N := by
    rw [hrel1r]; simp
  have hcnt2v :
      (applyReleases hs (applyAcquires N initState)).released.count false = 1 := by
    rw [hcnt1, hslen] at hcnt2; omega
  have hst2 : (applyReleases hs (applyAcquires N initState)).started = true := by
    rw [hInv2.sstarted, hcnt2v]; rfl
  have hmark2 := hInv2.smark.trans hst2
  have horacle2 := hInv2.soracle.trans hst2
  have huser2 := hInv2.suser.trans hst2
  have hfresh : (applyReleases hs (applyAcquires N initState)).released[hLast]?
      = some false := by
    refine hpres hLast hLastNm ?_
    rw [hrel1r]; simp [List.getElem?_replicate, hLastLt]
  obtain ⟨hh3, hf3⟩ := getElem?_fresh _ _ hfresh
  have hInv3 := inv_release (applyReleases hs (applyAcquires N initState))
    hLast hInv2
  obtain ⟨hrel3, _⟩ := release_released_of_fresh _ hLast hh3 hf3
  have hcnt3 : (release hLast (applyReleases hs
      (applyAcquires N initState))).released.count false = 0 := by
    have := count_false_set_true _ hLast hh3 hf3
    rw [hrel3]; omega
  have hst3 : (release hLast (applyReleases hs
      (applyAcquires N initState))).started = false := by
    rw [hInv3.sstarted, hcnt3]; rfl
  have hsnap3 := hInv3.snap hst3
  refine ⟨hmark2, horacle2, huser2, hInv3.smark.trans hst3,
    hInv3.soracle.trans hst3, hInv3.suser.trans hst3, hsnap3, ?_, ?_⟩
  · rw [hsnap3]; rfl
  · rw [hsnap3]; rfl

/-- Witness for C7 at `N = 2`: two acquires, one release keeps the
subscriptions up, the second release resets the snapshot. -/
theorem pnl_reference_counting_witness :
    (applyReleases [0] (applyAcquires 2 initState)).markPriceSub = true ∧
    (release 1 (applyReleases [0] (applyAcquires 2 initState))).currentState
      = defaultState := by
  have h := pnl_reference_counting 2 (by decide) [0] (by decide)
    (by intro h hm; simp at hm; omega) (by decide) 1 (by decide) (by decide)
  exact ⟨h.1, h.2.2.2.2.2.2.1⟩

/-- C10: the release closure is idempotent — a second call with the same
handle is a no-op, so a double release decrements the reference count exactly
once; and neither a release nor an acquire can drive a non-negative reference
count negative. -/
theorem release_idempotent (s : PnlState) (h : ℕ) :
    release h (release h s) = release h s ∧
    (0 ≤ s.refCount → 0 ≤ (release h s).refCount) ∧
    (0 ≤ s.refCount → 0 ≤ (acquire s).refCount) := by
  have hacq : (acquire s).refCount = s.refCount + 1 := by
    unfold acquire startInternal
    by_cases hb : s.started <;> simp [hb]
  by_cases hlt : h < s.released.length
  · by_cases hg : s.released.get ⟨h, hlt⟩
    · have h1 : release h s = s := by
        unfold release; rw [dif_pos hlt, if_pos hg]
      rw [h1]
      exact ⟨h1, fun hp => hp, fun hp => by rw [hacq]; omega⟩
    · have hf : s.released.get ⟨h, hlt⟩ = false := Bool.eq_false_iff.mpr hg
      obtain ⟨hrel, hrc⟩ := release_released_of_fresh s h hlt hf
      have hlen : (release h s).released.length = s.released.length := by
        rw [hrel]; simp
      have hlt2 : h < (release h s).released.length := by
        rw [hlen]; exact hlt
      have hget2q : (release h s).released[h]? = some true := by
        rw [hrel]
        exact List.getElem?_set_eq_of_lt true hlt
      have hget2 : (release h s).released.get ⟨h, hlt2⟩ = true := by
        obtain ⟨hh, he⟩ := List.getElem?_eq_some.mp hget2q
        simpa using he
      have hnoop : ∀ (s2 : PnlState) (hlt3 : h < s2.released.length),
          s2.released.get ⟨h, hlt3⟩ = true → release h s2 = s2 := by
        intro s2 hlt3 hg3
        unfold release; rw [dif_pos hlt3, if_pos hg3]
      have h2 : release h (release h s) = release h s :=
        hnoop (release h s) hlt2 hget2
      refine ⟨h2, fun hp => ?_, fun hp => by rw [hacq]; omega⟩
      rw [hrc]
      exact le_max_left 0 _
  · have h1 : release h s = s := by
      unfold release; rw [dif_neg hlt]
    rw [h1]
    exact ⟨h1, fun hp => hp, fun hp => by rw [hacq]; omega⟩

/-- Witness for C10: double release of the only handle after one acquire. -/
theorem release_idempotent_witness :
    release 0 (release 0 (acquire initState)) = release 0 (acquire initState) ∧
    0 ≤ (release 0 (acquire initState)).refCount := by
  refine ⟨(release_idempotent (acquire initState) 0).1, ?_⟩
  exact (release_idempotent (acquire initState) 0).2.1 (by decide)

end PnlStream

namespace LiveOrders

/-- `OrderStatus` of L2.tsx. -/
inductive OrderStatus where
  | pending
  | triggered
  | expired
deriving DecidableEq, Repr

/-- The kinds of lifecycle events published for a box
(`order:create` / `order:trigger` / `order:expire`). -/
inductive EventKind where
  | create
  | trigger
  | expire
deriving DecidableEq, Repr

/-- `OrderBox` of L2.tsx: cell indices, derived time/price bounds, status and
optional fired timestamp.  Ids are modelled as consecutive naturals (the
source uses opaque unique tokens from `cryptoId`). -/
structure OrderBox where
  id : ℕ
  i : ℤ
  j : ℤ
  t0 : ℚ
  t1 : ℚ
  p0 : ℚ
  p1 : ℚ
  status : OrderStatus
  firedAt : Option ℚ
deriving DecidableEq, Repr

/-- The cell key `${i}:${j}` of a box. -/
def cellOf (o : OrderBox) : ℤ × ℤ := (o.i, o.j)

/-- The mutable closure state of `initLiveOrders`: the clock, the dynamic
price step, the `orders` map (as an id-keyed list), the `occupied` cell set,
the pending 380 ms removal timers scheduled on expiry (box id and cell), the
hover preview cell (`lastHoverI/J/Key`), the set of box ids with a rendered
DOM rect, the id counter, and the emitted event trace. -/
structure GridState where
  now : ℚ
  priceStep : ℚ
  orders : List OrderBox
  occupied : List (ℤ × ℤ)
  timeouts : List (ℕ × ℤ × ℤ)
  hover : Option (ℤ × ℤ)
  rendered : List ℕ
  nextId : ℕ
  events : List (ℕ × EventKind)
deriving DecidableEq, Repr

/-- The state right after `initLiveOrders` (default `stepP` is `0.5`). -/
def initState : GridState :=
  { now := 0, priceStep := 1 / 2, orders := [], occupied := [],
    timeouts := [], hover := none, rendered := [], nextId := 0, events := [] }

/-- The snapped time-cell index used by hover, click and `createAt`:
`Math.max(Math.round(t / stepMs), Math.ceil(now / stepMs))`.  JS `Math.round`
is `⌊x + 1/2⌋`, which is Lean's `round`. -/
def snapCellI (stepMs now t : ℚ) : ℤ :=
  max (round (t / stepMs)) ⌈now / stepMs⌉

/-- A fresh pending box at cell `(i, j)`: bounds derived from the cell center
`(i * stepMs, j * priceStep)` and the half steps. -/
def mkBox (id : ℕ) (i j : ℤ) (stepMs priceStep : ℚ) : OrderBox :=
  { id := id, i := i, j := j,
    t0 := i * stepMs - stepMs / 2, t1 := i * stepMs + stepMs / 2,
    p0 := j * priceStep - priceStep / 2, p1 := j * priceStep + priceStep / 2,
    status := .pending, firedAt := none }

/-- The shared creation path: insert the box, reserve the cell, bump the id
counter, and emit the `create` event (`onCreated` emits unconditionally since
the box was just inserted into the map). -/
def addBox (stepMs : ℚ) (i j : ℤ) (s : GridState) : GridState :=
  { s with orders := s.orders ++ [mkBox s.nextId i j stepMs s.priceStep],
           occupied := (i, j) :: s.occupied,
           nextId := s.nextId + 1,
           events := s.events ++ [(s.nextId, EventKind.create)] }

/-- `createAt(timeMs, pMid)` of the returned API: snap to a cell (clamped to
the present), no-op when the cell is occupied; note that it does not touch
the hover preview. -/
def createAt (stepMs : ℚ) (timeMs pMid : ℚ) (s : GridState) : GridState :=
  let i := snapCellI stepMs s.now timeMs
  let j := round (pMid / s.priceStep)
  if (i, j) ∈ s.occupied then s else addBox stepMs i j s

/-- The overlay click handler: use the hover cell when present, otherwise
recompute from the pointer (rejecting past times); a click on an occupied
cell is a no-op, a successful click also hides the hover preview. -/
def click (stepMs : ℚ) (t p : ℚ) (s : GridState) : GridState :=
  match s.hover with
  | some (i, j) =>
    if (i, j) ∈ s.occupied then s
    else { addBox stepMs i j s with hover := none }
  | none =>
    if t < s.now then s
    else
      let i := snapCellI stepMs s.now t
      let j := round (p / s.priceStep)
      if (i, j) ∈ s.occupied then s
      else { addBox stepMs i j s with hover := none }

/-- The overlay mousemove handler: past pointer times hide the hover; staying
inside the same snapped cell is a no-op; otherwise the old hover is hidden
and the new cell becomes the hover only when it is not occupied. -/
def hoverMove (stepMs : ℚ) (t p : ℚ) (s : GridState) : GridState :=
  if t < s.now then { s with hover := none }
  else
    let i := snapCellI stepMs s.now t
    let j := round (p / s.priceStep)
    if s.hover = some (i, j) then s
    else if (i, j) ∈ s.occupied then { s with hover := none }
    else { s with hover := some (i, j) }

/-- The overlay mouseleave handler. -/
def hoverLeave (s : GridState) : GridState := { s with hover := none }

/-- A completed `render()`/`drawOrders()` pass: the d3 data join gives every
current box a DOM rect and removes exited ones.  (An inline `render()` call
may be skipped by the 16 ms throttle, so rendering is a separate step.) -/
def render (s : GridState) : GridState :=
  { s with rendered := s.orders.map (fun o => o.id) }

/-- In-place mutation of the map entry with the given id. -/
def setBoxStatus (orders : List OrderBox) (id : ℕ) (f : OrderBox → OrderBox) :
    List OrderBox :=
  orders.map (fun b => if b.id = id then f b else b)

/-- The trigger-branch mutation `o.status = "triggered"; o.firedAt = now`. -/
def markTriggered (now : ℚ) (b : OrderBox) : OrderBox :=
  { b with status := .triggered, firedAt := some now }

/-- The expiry-branch mutation `o.status = "expired"`. -/
def markExpired (b : OrderBox) : OrderBox :=
  { b with status := .expired }

/-- One iteration of the tick lifecycle loop for snapshot element `o`:
a pending box triggers when the time is inside `[t0, t1]` and the price is
inside `[min(p0,p1), max(p0,p1)]` (the `trigger` event is emitted only when
the box's rect is already rendered — `onTriggered` returns early otherwise);
failing that it expires when `now > t1` (event again gated on the rect, and a
380 ms removal timer is scheduled regardless); a non-pending box past `t1` is
removed and its cell released. -/
def tickBox (price : ℚ) (s : GridState) (o : OrderBox) : GridState :=
  if o.status = .pending then
    if (o.t0 ≤ s.now ∧ s.now ≤ o.t1) ∧
       (min o.p0 o.p1 ≤ price ∧ price ≤ max o.p0 o.p1) then
      { s with orders := setBoxStatus s.orders o.id (markTriggered s.now),
               events := if o.id ∈ s.rendered then
                   s.events ++ [(o.id, EventKind.trigger)]
                 else s.events }
    else if o.t1 < s.now then
      { s with orders := setBoxStatus s.orders o.id markExpired,
               timeouts := s.timeouts ++ [(o.id, o.i, o.j)],
               events := if o.id ∈ s.rendered then
                   s.events ++ [(o.id, EventKind.expire)]
                 else s.events }
    else s
  else if o.t1 < s.now then
    { s with orders := s.orders.filter (fun b => b.id ≠ o.id),
             occupied := s.occupied.filter (fun c => c ≠ (o.i, o.j)) }
  else s

/-- One run of the interval callback's lifecycle loop: iterate over the
snapshot `[...orders.values()]`, threading the state. -/
def tick (price : ℚ) (s : GridState) : GridState :=
  s.orders.foldl (tickBox price) s

/-- Firing of one scheduled 380 ms removal timer: drop the timer, delete the
box with the remembered id and release the remembered cell. -/
def fireTimeout (r : ℕ × ℤ × ℤ) (s : GridState) : GridState :=
  { s with timeouts := s.timeouts.erase r,
           orders := s.orders.filter (fun b => b.id ≠ r.1),
           occupied := s.occupied.filter (fun c => c ≠ r.2) }

/-- `setStepGranularity`: change the price step and redraw every box's price
bounds around its unchanged cell index. -/
def setPriceStep (q : ℚ) (s : GridState) : GridState :=
  { s with priceStep := q,
           orders := s.orders.map (fun o =>
             { o with p0 := o.j * q - q / 2, p1 := o.j * q + q / 2 }) }

/-- The controller's transition relation: time advances monotonically; ticks,
pointer interactions, renders, timer firings and granularity changes may
interleave arbitrarily. -/
inductive Step (stepMs : ℚ) : GridState → GridState → Prop where
  | stepAdvance (s : GridState) (t : ℚ) (h : s.now ≤ t) :
      Step stepMs s { s with now := t }
  | stepTick (s : GridState) (price : ℚ) : Step stepMs s (tick price s)
  | stepClick (s : GridState) (t p : ℚ) : Step stepMs s (click stepMs t p s)
  | stepCreateAt (s : GridState) (t p : ℚ) :
      Step stepMs s (createAt stepMs t p s)
  | stepHoverMove (s : GridState) (t p : ℚ) :
      Step stepMs s (hoverMove stepMs t p s)
  | stepHoverLeave (s : GridState) : Step stepMs s (hoverLeave s)
  | stepRender (s : GridState) : Step stepMs s (render s)
  | stepFireTimeout (s : GridState) (r : ℕ × ℤ × ℤ) (h : r ∈ s.timeouts) :
      Step stepMs s (fireTimeout r s)
  | stepSetPriceStep (s : GridState) (q : ℚ) (h : 0 < q) :
      Step stepMs s (setPriceStep q s)

/-- States reachable from the fresh controller. -/
inductive Reachable (stepMs : ℚ) : GridState → Prop where
  | init : Reachable stepMs initState
  | step {s s2 : GridState} :
      Reachable stepMs s → Step stepMs s s2 → Reachable stepMs s2

/-- The event subtrace of one box id. -/
def filt (events : List (ℕ × EventKind)) (id : ℕ) : List (ℕ × EventKind) :=
  events.filter (fun e => e.1 = id)

/-- A cell whose time span already ended. -/
def cellPast (stepMs now : ℚ) (c : ℤ × ℤ) : Prop :=
  c.1 * stepMs + stepMs / 2 < now

/-- The inductive invariant of the controller.  Beyond the claimed occupancy
facts it tracks everything needed to push them through stale hover clicks and
the delayed removal timers: live boxes have distinct ids and distinct cells,
their `t1` is derived from their cell, a live box's cell is reserved unless
the box is already past, removal timers only ever point at past cells and at
expired boxes, a hover preview never points at a live box whose cell has been
stolen, a timer's cell can host a foreign live box only once the hover is
gone, and the event trace of every id matches its box's status. -/
structure Inv (stepMs : ℚ) (s : GridState) : Prop where
  idLt : ∀ o ∈ s.orders, o.id < s.nextId
  idNodup : (s.orders.map (fun o => o.id)).Nodup
  cellNodup : ∀ o1 ∈ s.orders, ∀ o2 ∈ s.orders, o1.id ≠ o2.id →
    cellOf o1 ≠ cellOf o2
  t1Eq : ∀ o ∈ s.orders, o.t1 = o.i * stepMs + stepMs / 2
  occOrPast : ∀ o ∈ s.orders, cellOf o ∈ s.occupied ∨ o.t1 < s.now
  timeoutPast : ∀ r ∈ s.timeouts, cellPast stepMs s.now r.2
  timeoutIdLt : ∀ r ∈ s.timeouts, r.1 < s.nextId
  timeoutStatus : ∀ r ∈ s.timeouts, ∀ o ∈ s.orders, o.id = r.1 →
    o.status = .expired
  hoverOcc : ∀ c, s.hover = some c → ∀ o ∈ s.orders, cellOf o = c →
    c ∈ s.occupied
  timeoutHover : ∀ r ∈ s.timeouts, ∀ o ∈ s.orders, cellOf o = r.2 →
    o.id = r.1 ∨ s.hover ≠ some r.2
  traceNew : ∀ id, s.nextId ≤ id → filt s.events id = []
  traceStatus : ∀ o ∈ s.orders,
    (o.status = .pending → filt s.events o.id = [(o.id, .create)]) ∧
    (o.status = .triggered → filt s.events o.id = [(o.id, .create)] ∨
      filt s.events o.id = [(o.id, .create), (o.id, .trigger)]) ∧
    (o.status = .expired → filt s.events o.id = [(o.id, .create)] ∨
      filt s.events o.id = [(o.id, .create), (o.id, .expire)])
  traceDead : ∀ id, id < s.nextId → (∀ o ∈ s.orders, o.id ≠ id) →
    filt s.events id = [(id, .create)] ∨
    filt s.events id = [(id, .create), (id, .trigger)] ∨
    filt s.events id = [(id, .create), (id, .expire)]

/-- A cell whose time index clears the `Math.ceil(now / stepMs)` clamp has
not ended yet. -/
theorem not_past_of_snap (stepMs now : ℚ) (hstep : 0 < stepMs) (i : ℤ)
    (hi : ⌈now / stepMs⌉ ≤ i) : now < i * stepMs + stepMs / 2 := by
  have h1 : now / stepMs ≤ (i : ℚ) := le_trans (Int.le_ceil _) (by exact_mod_cast hi)
  have h2 : now ≤ i * stepMs := by
    rw [div_le_iff₀ hstep] at h1; linarith
  linarith

theorem snapCellI_ceil_le (stepMs now t : ℚ) :
    ⌈now / stepMs⌉ ≤ snapCellI stepMs now t :=
  le_max_right _ _

theorem filt_append (l : List (ℕ × EventKind)) (a : ℕ) (k : EventKind)
    (id : ℕ) :
    filt (l ++ [(a, k)]) id =
      filt l id ++ (if a = id then [(a, k)] else []) := by
  unfold filt
  rw [List.filter_append]
  congr 1
  by_cases h : a = id <;> simp [List.filter, h]

theorem filt_append_ne (l : List (ℕ × EventKind)) (a : ℕ) (k : EventKind)
    (id : ℕ) (h : a ≠ id) : filt (l ++ [(a, k)]) id = filt l id := by
  rw [filt_append, if_neg h, List.append_nil]

theorem filt_append_self (l : List (ℕ × EventKind)) (a : ℕ) (k : EventKind) :
    filt (l ++ [(a, k)]) a = filt l a ++ [(a, k)] := by
  rw [filt_append, if_pos rfl]

/-- Distinct ids make the id-keyed lookup view of `orders` unambiguous. -/
theorem eq_of_mem_of_id_eq (l : List OrderBox)
    (hnd : (l.map (fun o => o.id)).Nodup) (o b : OrderBox)
    (ho : o ∈ l) (hb : b ∈ l) (hid : b.id = o.id) : b = o := by
  exact List.inj_on_of_nodup_map hnd hb ho hid

theorem inv_gridInit (stepMs : ℚ) : Inv stepMs initState := by
  constructor <;> intros <;> simp_all [initState, filt]

theorem no_box_at_fresh_cell (stepMs : ℚ) (s : GridState) (hstep : 0 < stepMs)
    (hInv : Inv stepMs s) (i j : ℤ) (hi : ⌈s.now / stepMs⌉ ≤ i)
    (hfree : (i, j) ∉ s.occupied) :
    ∀ o ∈ s.orders, cellOf o ≠ (i, j) := by
  intro o ho heq
  rcases hInv.occOrPast o ho with hocc | hpast
  · rw [heq] at hocc; exact hfree hocc
  · have ht1 := hInv.t1Eq o ho
    have hoi : o.i = i := congrArg Prod.fst heq
    have hnp := not_past_of_snap stepMs s.now hstep i hi
    rw [ht1, hoi] at hpast
    linarith

theorem no_timeout_at_fresh_cell (stepMs : ℚ) (s : GridState)
    (hstep : 0 < stepMs) (hInv : Inv stepMs s) (i j : ℤ)
    (hi : ⌈s.now / stepMs⌉ ≤ i) :
    ∀ r ∈ s.timeouts, r.2 ≠ (i, j) := by
  intro r hr heq
  have hp := hInv.timeoutPast r hr
  unfold cellPast at hp
  rw [heq] at hp
  have hnp := not_past_of_snap stepMs s.now hstep i hi
  simp only at hp
  linarith

theorem addBox_inv (stepMs : ℚ) (s : GridState) (i j : ℤ)
    (hstep : 0 < stepMs) (hInv : Inv stepMs s)
    (hfree : (i, j) ∉ s.occupied)
    (hnobox : ∀ o ∈ s.orders, cellOf o ≠ (i, j))
    (hth : ∀ r ∈ s.timeouts, r.2 = (i, j) → s.hover ≠ some (i, j)) :
    Inv stepMs (addBox stepMs i j s) := by
  have hmem : ∀ o : OrderBox, o ∈ (addBox stepMs i j s).orders ↔
      o ∈ s.orders ∨ o = mkBox s.nextId i j stepMs s.priceStep := by
    intro o; simp [addBox]
  have hbid : (mkBox s.nextId i j stepMs s.priceStep).id = s.nextId := rfl
  have hbcell : cellOf (mkBox s.nextId i j stepMs s.priceStep) = (i, j) := rfl
  have hbstatus : (mkBox s.nextId i j stepMs s.priceStep).status = .pending := rfl
  refine { idLt := ?_, idNodup := ?_, cellNodup := ?_, t1Eq := ?_,
           occOrPast := ?_, timeoutPast := ?_, timeoutIdLt := ?_,
           timeoutStatus := ?_, hoverOcc := ?_, timeoutHover := ?_,
           traceNew := ?_, traceStatus := ?_, traceDead := ?_ }
  · intro o ho
    rcases (hmem o).mp ho with h | h
    · exact Nat.lt_succ_of_lt (hInv.idLt o h)
    · rw [h]; exact Nat.lt_succ_self _
  · show ((s.orders ++ [mkBox s.nextId i j stepMs s.priceStep]).map
      (fun o => o.id)).Nodup
    rw [List.map_append]
    refine List.Nodup.append hInv.idNodup (by simp) ?_
    intro a ha hb
    simp only [List.mem_map] at ha
    obtain ⟨o, ho, hoa⟩ := ha
    simp only [List.map_cons, List.map_nil, List.mem_singleton] at hb
    have := hInv.idLt o ho
    omega
  · intro o1 h1 o2 h2 hne
    rcases (hmem o1).mp h1 with ha | ha <;> rcases (hmem o2).mp h2 with hb | hb
    · exact hInv.cellNodup o1 ha o2 hb hne
    · rw [hb, hbcell]; exact hnobox o1 ha
    · rw [ha, hbcell]; intro hc; exact hnobox o2 hb hc.symm
    · rw [ha, hb] at hne; exact absurd rfl hne
  · intro o ho
    rcases (hmem o).mp ho with h | h
    · exact hInv.t1Eq o h
    · rw [h]; rfl
  · intro o ho
    rcases (hmem o).mp ho with h | h
    · rcases hInv.occOrPast o h with hc | hp
      · exact Or.inl (List.mem_cons_of_mem _ hc)
      · exact Or.inr hp
    · rw [h, hbcell]; exact Or.inl (List.mem_cons_self _ _)
  · exact hInv.timeoutPast
  · intro r hr; exact Nat.lt_succ_of_lt (hInv.timeoutIdLt r hr)
  · intro r hr o ho hid
    rcases (hmem o).mp ho with h | h
    · exact hInv.timeoutStatus r hr o h hid
    · exfalso
      have := hInv.timeoutIdLt r hr
      rw [h, hbid] at hid
      omega
  · intro c hc o ho hcell
    rcases (hmem o).mp ho with h | h
    · exact List.mem_cons_of_mem _ (hInv.hoverOcc c hc o h hcell)
    · rw [h, hbcell] at hcell
      rw [← hcell]
      exact List.mem_cons_self _ _
  · intro r hr o ho hcell
    rcases (hmem o).mp ho with h | h
    · exact hInv.timeoutHover r hr o h hcell
    · rw [h, hbcell] at hcell
      refine Or.inr ?_
      rw [← hcell]
      exact hth r hr hcell.symm
  · intro id hid
    have hnn : (addBox stepMs i j s).nextId = s.nextId + 1 := rfl
    rw [hnn] at hid
    show filt (s.events ++ [(s.nextId, EventKind.create)]) id = []
    rw [filt_append_ne _ _ _ _ (by omega)]
    exact hInv.traceNew id (by omega)
  · intro o ho
    have hne : (addBox stepMs i j s).events =
        s.events ++ [(s.nextId, EventKind.create)] := rfl
    rw [hne]
    rcases (hmem o).mp ho with h | h
    · have hlt := hInv.idLt o h
      have heq : filt (s.events ++ [(s.nextId, EventKind.create)]) o.id =
          filt s.events o.id := filt_append_ne _ _ _ _ (by omega)
      obtain ⟨c1, c2, c3⟩ := hInv.traceStatus o h
      exact ⟨fun hp => by rw [heq]; exact c1 hp,
             fun hp => by rw [heq]; exact c2 hp,
             fun hp => by rw [heq]; exact c3 hp⟩
    · subst h
      rw [hbid, hbstatus]
      have heq : filt (s.events ++ [(s.nextId, EventKind.create)]) s.nextId =
          filt s.events s.nextId ++ [(s.nextId, EventKind.create)] :=
        filt_append_self _ _ _
      have hnil := hInv.traceNew s.nextId (le_refl _)
      refine ⟨fun _ => ?_, fun hp => ?_, fun hp => ?_⟩
      · rw [heq, hnil]; rfl
      · exact absurd hp (by simp)
      · exact absurd hp (by simp)
  · intro id hid hdead
    have hnn : (addBox stepMs i j s).nextId = s.nextId + 1 := rfl
    have hne : (addBox stepMs i j s).events =
        s.events ++ [(s.nextId, EventKind.create)] := rfl
    rw [hnn] at hid
    rw [hne]
    have hidn : id ≠ s.nextId := by
      intro h
      exact hdead (mkBox s.nextId i j stepMs s.priceStep)
        ((hmem _).mpr (Or.inr rfl)) (by rw [hbid, h])
    have heq : filt (s.events ++ [(s.nextId, EventKind.create)]) id =
        filt s.events id := filt_append_ne _ _ _ _ (fun h => hidn h.symm)
    rw [heq]
    refine hInv.traceDead id (by omega) ?_
    intro o ho
    exact hdead o ((hmem o).mpr (Or.inl ho))

theorem inv_hover_set (stepMs : ℚ) (s : GridState) (hInv : Inv stepMs s)
    (h : Option (ℤ × ℤ))
    (hh : ∀ c, h = some c → (∀ o ∈ s.orders, cellOf o = c → c ∈ s.occupied) ∧
      (∀ r ∈ s.timeouts, r.2 = c →
        ∀ o ∈ s.orders, cellOf o = r.2 → o.id = r.1)) :
    Inv stepMs { s with hover := h } := by
  refine { idLt := hInv.idLt, idNodup := hInv.idNodup,
           cellNodup := hInv.cellNodup, t1Eq := hInv.t1Eq,
           occOrPast := hInv.occOrPast, timeoutPast := hInv.timeoutPast,
           timeoutIdLt := hInv.timeoutIdLt,
           timeoutStatus := hInv.timeoutStatus, hoverOcc := ?_,
           timeoutHover := ?_, traceNew := hInv.traceNew,
           traceStatus := hInv.traceStatus, traceDead := hInv.traceDead }
  · intro c hc o ho hcell
    exact ((hh c hc).1) o ho hcell
  · intro r hr o ho hcell
    by_cases he : h = some r.2
    · exact Or.inl ((hh r.2 he).2 r hr rfl o ho hcell)
    · exact Or.inr he

theorem inv_hover_none (stepMs : ℚ) (s : GridState) (hInv : Inv stepMs s) :
    Inv stepMs { s with hover := none } := by
  refine inv_hover_set stepMs s hInv none ?_
  intro c hc; cases hc

theorem inv_createAt (stepMs t p : ℚ) (s : GridState) (hstep : 0 < stepMs)
    (hInv : Inv stepMs s) : Inv stepMs (createAt stepMs t p s) := by
  unfold createAt
  by_cases hocc : (snapCellI stepMs s.now t, round (p / s.priceStep)) ∈
      s.occupied
  · rw [if_pos hocc]; exact hInv
  · rw [if_neg hocc]
    refine addBox_inv stepMs s _ _ hstep hInv hocc
      (no_box_at_fresh_cell stepMs s hstep hInv _ _
        (snapCellI_ceil_le stepMs s.now t) hocc) ?_
    intro r hr hreq
    exact absurd hreq (no_timeout_at_fresh_cell stepMs s hstep hInv _ _
      (snapCellI_ceil_le stepMs s.now t) r hr)

theorem addBox_hover_none (stepMs : ℚ) (i j : ℤ) (s : GridState) :
    { addBox stepMs i j s with hover := none } =
      addBox stepMs i j { s with hover := none } := rfl

theorem inv_click (stepMs t p : ℚ) (s : GridState) (hstep : 0 < stepMs)
    (hInv : Inv stepMs s) : Inv stepMs (click stepMs t p s) := by
  unfold click
  rcases hh : s.hover with _ | ⟨i, j⟩
  · simp only []
    by_cases hlt : t < s.now
    · rw [if_pos hlt]; exact hInv
    · rw [if_neg hlt]
      by_cases hocc : (snapCellI stepMs s.now t, round (p / s.priceStep)) ∈
          s.occupied
      · rw [if_pos hocc]; exact hInv
      · rw [if_neg hocc]
        rw [addBox_hover_none]
        refine addBox_inv stepMs { s with hover := none } _ _ hstep
          (inv_hover_none stepMs s hInv) hocc
          (no_box_at_fresh_cell stepMs { s with hover := none } hstep
            (inv_hover_none stepMs s hInv) _ _
            (snapCellI_ceil_le stepMs s.now t) hocc) ?_
        intro r hr hreq
        simp
  · simp only []
    by_cases hocc : (i, j) ∈ s.occupied
    · rw [if_pos hocc]; exact hInv
    · rw [if_neg hocc]
      rw [addBox_hover_none]
      refine addBox_inv stepMs { s with hover := none } i j hstep
        (inv_hover_none stepMs s hInv) hocc ?_ ?_
      · intro o ho hcell
        exact hocc (hInv.hoverOcc (i, j) hh o ho hcell)
      · intro r hr hreq
        simp

theorem inv_hoverMove (stepMs t p : ℚ) (s : GridState) (hstep : 0 < stepMs)
    (hInv : Inv stepMs s) : Inv stepMs (hoverMove stepMs t p s) := by
  unfold hoverMove
  by_cases h1 : t < s.now
  · rw [if_pos h1]; exact inv_hover_none stepMs s hInv
  · rw [if_neg h1]
    by_cases h2 : s.hover = some (snapCellI stepMs s.now t,
        round (p / s.priceStep))
    · rw [if_pos h2]; exact hInv
    · rw [if_neg h2]
      by_cases h3 : (snapCellI stepMs s.now t, round (p / s.priceStep)) ∈
          s.occupied
      · rw [if_pos h3]; exact inv_hover_none stepMs s hInv
      · rw [if_neg h3]
        refine inv_hover_set stepMs s hInv _ ?_
        intro c hc
        have hcc : c = (snapCellI stepMs s.now t, round (p / s.priceStep)) :=
          (Option.some_inj.mp hc).symm
        subst hcc
        constructor
        · intro o ho hcell
          exact absurd hcell (no_box_at_fresh_cell stepMs s hstep hInv _ _
            (snapCellI_ceil_le stepMs s.now t) h3 o ho)
        · intro r hr hreq
          exact absurd hreq (no_timeout_at_fresh_cell stepMs s hstep hInv _ _
            (snapCellI_ceil_le stepMs s.now t) r hr)

theorem inv_hoverLeave (stepMs : ℚ) (s : GridState) (hInv : Inv stepMs s) :
    Inv stepMs (hoverLeave s) :=
  inv_hover_none stepMs s hInv

theorem inv_render (stepMs : ℚ) (s : GridState) (hInv : Inv stepMs s) :
    Inv stepMs (render s) :=
  { idLt := hInv.idLt, idNodup := hInv.idNodup,
    cellNodup := hInv.cellNodup, t1Eq := hInv.t1Eq,
    occOrPast := hInv.occOrPast, timeoutPast := hInv.timeoutPast,
    timeoutIdLt := hInv.timeoutIdLt, timeoutStatus := hInv.timeoutStatus,
    hoverOcc := hInv.hoverOcc, timeoutHover := hInv.timeoutHover,
    traceNew := hInv.traceNew, traceStatus := hInv.traceStatus,
    traceDead := hInv.traceDead }

theorem inv_advance (stepMs : ℚ) (s : GridState) (t : ℚ) (ht : s.now ≤ t)
    (hInv : Inv stepMs s) : Inv stepMs { s with now := t } := by
  refine { idLt := hInv.idLt, idNodup := hInv.idNodup,
           cellNodup := hInv.cellNodup, t1Eq := hInv.t1Eq,
           occOrPast := ?_, timeoutPast := ?_,
           timeoutIdLt := hInv.timeoutIdLt,
           timeoutStatus := hInv.timeoutStatus, hoverOcc := hInv.hoverOcc,
           timeoutHover := hInv.timeoutHover, traceNew := hInv.traceNew,
           traceStatus := hInv.traceStatus, traceDead := hInv.traceDead }
  · intro o ho
    rcases hInv.occOrPast o ho with h | h
    · exact Or.inl h
    · exact Or.inr (lt_of_lt_of_le h ht)
  · intro r hr
    exact lt_of_lt_of_le (hInv.timeoutPast r hr) ht

theorem inv_setPriceStep (stepMs q : ℚ) (s : GridState)
    (hInv : Inv stepMs s) : Inv stepMs (setPriceStep q s) := by
  have hmem : ∀ o2 : OrderBox, o2 ∈ (setPriceStep q s).orders ↔
      ∃ o ∈ s.orders, o2 = { o with p0 := o.j * q - q / 2,
                                    p1 := o.j * q + q / 2 } := by
    intro o2
    simp only [setPriceStep, List.mem_map]
    constructor
    · rintro ⟨o, ho, rfl⟩; exact ⟨o, ho, rfl⟩
    · rintro ⟨o, ho, rfl⟩; exact ⟨o, ho, rfl⟩
  have hmap : (setPriceStep q s).orders.map (fun o => o.id) =
      s.orders.map (fun o => o.id) := by
    simp only [setPriceStep, List.map_map]
    rfl
  refine { idLt := ?_, idNodup := ?_, cellNodup := ?_, t1Eq := ?_,
           occOrPast := ?_, timeoutPast := hInv.timeoutPast,
           timeoutIdLt := hInv.timeoutIdLt, timeoutStatus := ?_,
           hoverOcc := ?_, timeoutHover := ?_, traceNew := hInv.traceNew,
           traceStatus := ?_, traceDead := ?_ }
  · intro o2 ho2
    obtain ⟨o, ho, rfl⟩ := (hmem o2).mp ho2
    exact hInv.idLt o ho
  · rw [hmap]; exact hInv.idNodup
  · intro o1 h1 o2 h2 hne
    obtain ⟨a, ha, rfl⟩ := (hmem o1).mp h1
    obtain ⟨b, hb, rfl⟩ := (hmem o2).mp h2
    exact hInv.cellNodup a ha b hb hne
  · intro o2 ho2
    obtain ⟨o, ho, rfl⟩ := (hmem o2).mp ho2
    exact hInv.t1Eq o ho
  · intro o2 ho2
    obtain ⟨o, ho, rfl⟩ := (hmem o2).mp ho2
    exact hInv.occOrPast o ho
  · intro r hr o2 ho2 hid
    obtain ⟨o, ho, rfl⟩ := (hmem o2).mp ho2
    exact hInv.timeoutStatus r hr o ho hid
  · intro c hc o2 ho2 hcell
    obtain ⟨o, ho, rfl⟩ := (hmem o2).mp ho2
    exact hInv.hoverOcc c hc o ho hcell
  · intro r hr o2 ho2 hcell
    obtain ⟨o, ho, rfl⟩ := (hmem o2).mp ho2
    exact hInv.timeoutHover r hr o ho hcell
  · intro o2 ho2
    obtain ⟨o, ho, rfl⟩ := (hmem o2).mp ho2
    exact hInv.traceStatus o ho
  · intro id hid hdead
    refine hInv.traceDead id hid ?_
    intro o ho
    exact hdead { o with p0 := o.j * q - q / 2, p1 := o.j * q + q / 2 }
      ((hmem _).mpr ⟨o, ho, rfl⟩)

theorem inv_fireTimeout (stepMs : ℚ) (s : GridState) (r : ℕ × ℤ × ℤ)
    (hr : r ∈ s.timeouts) (hInv : Inv stepMs s) :
    Inv stepMs (fireTimeout r s) := by
  have hmem : ∀ o : OrderBox, o ∈ (fireTimeout r s).orders ↔
      o ∈ s.orders ∧ o.id ≠ r.1 := by
    intro o; simp [fireTimeout]
  have hmemc : ∀ c : ℤ × ℤ, c ∈ (fireTimeout r s).occupied ↔
      c ∈ s.occupied ∧ c ≠ r.2 := by
    intro c; simp [fireTimeout]
  have hsub : ∀ r2 : ℕ × ℤ × ℤ, r2 ∈ (fireTimeout r s).timeouts →
      r2 ∈ s.timeouts := by
    intro r2 h2
    exact List.mem_of_mem_erase h2
  refine { idLt := ?_, idNodup := ?_, cellNodup := ?_, t1Eq := ?_,
           occOrPast := ?_, timeoutPast := ?_, timeoutIdLt := ?_,
           timeoutStatus := ?_, hoverOcc := ?_, timeoutHover := ?_,
           traceNew := hInv.traceNew, traceStatus := ?_, traceDead := ?_ }
  · intro o ho; exact hInv.idLt o ((hmem o).mp ho).1
  · have : List.Sublist ((fireTimeout r s).orders.map (fun o => o.id))
        (s.orders.map (fun o => o.id)) :=
      List.Sublist.map _ (List.filter_sublist _)
    exact hInv.idNodup.sublist this
  · intro o1 h1 o2 h2 hne
    exact hInv.cellNodup o1 ((hmem o1).mp h1).1 o2 ((hmem o2).mp h2).1 hne
  · intro o ho; exact hInv.t1Eq o ((hmem o).mp ho).1
  · intro o ho
    obtain ⟨hos, hoid⟩ := (hmem o).mp ho
    rcases hInv.occOrPast o hos with hc | hp
    · by_cases hcr : cellOf o = r.2
      · refine Or.inr ?_
        have hp := hInv.timeoutPast r hr
        unfold cellPast at hp
        have ht1 := hInv.t1Eq o hos
        have : o.i = r.2.1 := congrArg Prod.fst hcr
        rw [ht1, this]
        exact hp
      · exact Or.inl ((hmemc _).mpr ⟨hc, hcr⟩)
    · exact Or.inr hp
  · intro r2 h2; exact hInv.timeoutPast r2 (hsub r2 h2)
  · intro r2 h2; exact hInv.timeoutIdLt r2 (hsub r2 h2)
  · intro r2 h2 o ho hid
    exact hInv.timeoutStatus r2 (hsub r2 h2) o ((hmem o).mp ho).1 hid
  · intro c hc o ho hcell
    obtain ⟨hos, hoid⟩ := (hmem o).mp ho
    have hold := hInv.hoverOcc c hc o hos hcell
    by_cases hcr : c = r.2
    · exfalso
      rcases hInv.timeoutHover r hr o hos (by rw [hcell, hcr]) with h | h
      · exact hoid h
      · rw [← hcr] at h; exact h hc
    · exact (hmemc c).mpr ⟨hold, hcr⟩
  · intro r2 h2 o ho hcell
    exact hInv.timeoutHover r2 (hsub r2 h2) o ((hmem o).mp ho).1 hcell
  · intro o ho; exact hInv.traceStatus o ((hmem o).mp ho).1
  · intro id hid hdead
    by_cases holddead : ∀ o ∈ s.orders, o.id ≠ id
    · exact hInv.traceDead id hid holddead
    · push_neg at holddead
      obtain ⟨o, ho, hoid⟩ := holddead
      have hor : o.id = r.1 := by
        by_contra hne
        exact hdead o ((hmem o).mpr ⟨ho, hne⟩) hoid
      have hst : o.status = .expired :=
        hInv.timeoutStatus r hr o ho hor
      have := (hInv.traceStatus o ho).2.2 hst
      rw [hoid] at this
      rcases this with h | h
      · exact Or.inl h
      · exact Or.inr (Or.inr h)

theorem mem_setBoxStatus (l : List OrderBox) (id : ℕ) (f : OrderBox → OrderBox)
    (b2 : OrderBox) : b2 ∈ setBoxStatus l id f ↔
      ∃ b ∈ l, b2 = if b.id = id then f b else b := by
  simp only [setBoxStatus, List.mem_map]
  constructor
  · rintro ⟨b, hb, rfl⟩; exact ⟨b, hb, rfl⟩
  · rintro ⟨b, hb, rfl⟩; exact ⟨b, hb, rfl⟩

theorem setBoxStatus_map_id (l : List OrderBox) (id : ℕ)
    (f : OrderBox → OrderBox) (hfid : ∀ b, (f b).id = b.id) :
    (setBoxStatus l id f).map (fun b => b.id) = l.map (fun b => b.id) := by
  unfold setBoxStatus
  rw [List.map_map]
  refine List.map_congr_left ?_
  intro b _
  by_cases h : b.id = id <;> simp [h, hfid]

theorem mem_setBoxStatus_self (l : List OrderBox) (o : OrderBox)
    (hnd : (l.map (fun b => b.id)).Nodup) (ho : o ∈ l)
    (f : OrderBox → OrderBox) :
    f o ∈ setBoxStatus l o.id f := by
  rw [mem_setBoxStatus]
  exact ⟨o, ho, by rw [if_pos rfl]⟩

/-- Invariant preservation for the two status-updating tick branches (trigger
and expire), parametrized by the mutation `f`, the new status, the emitted
event kind and the scheduled timers. -/
theorem inv_tickStatusUpdate (stepMs : ℚ) (s : GridState) (o : OrderBox)
    (hInv : Inv stepMs s) (ho : o ∈ s.orders) (hp : o.status = .pending)
    (f : OrderBox → OrderBox) (st2 : OrderStatus) (k : EventKind)
    (hfid : ∀ b, (f b).id = b.id)
    (hfcell : ∀ b, cellOf (f b) = cellOf b)
    (hft1 : ∀ b, (f b).t1 = b.t1)
    (hfst : ∀ b, (f b).status = st2)
    (tmo : List (ℕ × ℤ × ℤ))
    (htmo : tmo = [] ∨
      (tmo = [(o.id, o.i, o.j)] ∧ o.t1 < s.now ∧ st2 = .expired))
    (kok : (st2 = .triggered ∧ k = .trigger) ∨
           (st2 = .expired ∧ k = .expire)) :
    Inv stepMs { s with orders := setBoxStatus s.orders o.id f,
                        timeouts := s.timeouts ++ tmo,
                        events := if o.id ∈ s.rendered then
                            s.events ++ [(o.id, k)]
                          else s.events } := by
  have huniq : ∀ b ∈ s.orders, b.id = o.id → b = o := fun b hb hid =>
    eq_of_mem_of_id_eq s.orders hInv.idNodup o b ho hb hid
  have hsrc : ∀ b2 ∈ setBoxStatus s.orders o.id f,
      (b2 = f o ∧ b2.id = o.id) ∨
      (b2 ∈ s.orders ∧ b2.id ≠ o.id) := by
    intro b2 hb2
    obtain ⟨b, hb, hbe⟩ := (mem_setBoxStatus _ _ _ _).mp hb2
    by_cases hid : b.id = o.id
    · have : b = o := huniq b hb hid
      subst this
      rw [if_pos hid] at hbe
      exact Or.inl ⟨hbe, by rw [hbe, hfid, hid]⟩
    · rw [if_neg hid] at hbe
      subst hbe
      exact Or.inr ⟨hb, hid⟩
  have hcellf : ∀ b2 ∈ setBoxStatus s.orders o.id f,
      ∃ b ∈ s.orders, b2.id = b.id ∧ cellOf b2 = cellOf b ∧ b2.t1 = b.t1 := by
    intro b2 hb2
    rcases hsrc b2 hb2 with ⟨hbe, hbid⟩ | ⟨hb, _⟩
    · exact ⟨o, ho, by rw [hbe, hfid], by rw [hbe, hfcell], by rw [hbe, hft1]⟩
    · exact ⟨b2, hb, rfl, rfl, rfl⟩
  have hmemT : ∀ r2 : ℕ × ℤ × ℤ, r2 ∈ s.timeouts ++ tmo ↔
      r2 ∈ s.timeouts ∨ r2 ∈ tmo := fun r2 => List.mem_append
  have hfiltNe : ∀ id2, id2 ≠ o.id →
      filt (if o.id ∈ s.rendered then s.events ++ [(o.id, k)] else s.events)
        id2 = filt s.events id2 := by
    intro id2 hne
    by_cases hr : o.id ∈ s.rendered
    · rw [if_pos hr, filt_append_ne _ _ _ _ (fun h => hne h.symm)]
    · rw [if_neg hr]
  have hfo_mem : f o ∈ setBoxStatus s.orders o.id f :=
    mem_setBoxStatus_self s.orders o hInv.idNodup ho f
  have hst2ne : st2 ≠ .pending := by
    rcases kok with ⟨h1, _⟩ | ⟨h1, _⟩ <;> rw [h1] <;> intro h <;> cases h
  refine { idLt := ?_, idNodup := ?_, cellNodup := ?_, t1Eq := ?_,
           occOrPast := ?_, timeoutPast := ?_, timeoutIdLt := ?_,
           timeoutStatus := ?_, hoverOcc := ?_, timeoutHover := ?_,
           traceNew := ?_, traceStatus := ?_, traceDead := ?_ }
  · intro b2 hb2
    obtain ⟨b, hb, hbid, _, _⟩ := hcellf b2 hb2
    rw [hbid]
    exact hInv.idLt b hb
  · show ((setBoxStatus s.orders o.id f).map (fun b => b.id)).Nodup
    rw [setBoxStatus_map_id _ _ _ hfid]
    exact hInv.idNodup
  · intro b1 h1 b2 h2 hne
    obtain ⟨a1, ha1, hid1, hcell1, _⟩ := hcellf b1 h1
    obtain ⟨a2, ha2, hid2, hcell2, _⟩ := hcellf b2 h2
    rw [hcell1, hcell2]
    refine hInv.cellNodup a1 ha1 a2 ha2 ?_
    rw [← hid1, ← hid2]
    exact hne
  · intro b2 hb2
    obtain ⟨b, hb, _, hcell, ht⟩ := hcellf b2 hb2
    have hi : b2.i = b.i := congrArg Prod.fst hcell
    rw [ht, hi]
    exact hInv.t1Eq b hb
  · intro b2 hb2
    obtain ⟨b, hb, _, hcell, ht⟩ := hcellf b2 hb2
    rw [hcell, ht]
    exact hInv.occOrPast b hb
  · intro r2 hr2
    rcases (hmemT r2).mp hr2 with h | h
    · exact hInv.timeoutPast r2 h
    · rcases htmo with he | ⟨he, hlt, _⟩
      · rw [he] at h; cases h
      · rw [he] at h
        simp only [List.mem_singleton] at h
        subst h
        show cellPast stepMs s.now (o.i, o.j)
        unfold cellPast
        have := hInv.t1Eq o ho
        simp only
        linarith
  · intro r2 hr2
    rcases (hmemT r2).mp hr2 with h | h
    · exact hInv.timeoutIdLt r2 h
    · rcases htmo with he | ⟨he, _, _⟩
      · rw [he] at h; cases h
      · rw [he] at h
        simp only [List.mem_singleton] at h
        subst h
        exact hInv.idLt o ho
  · intro r2 hr2 b2 hb2 hid
    rcases (hmemT r2).mp hr2 with h | h
    · rcases hsrc b2 hb2 with ⟨hbe, hbid⟩ | ⟨hb, hbne⟩
      · exfalso
        rw [hbid] at hid
        have hexp := hInv.timeoutStatus r2 h o ho hid
        rw [hp] at hexp
        simp at hexp
      · exact hInv.timeoutStatus r2 h b2 hb hid
    · rcases htmo with he | ⟨he, _, hst⟩
      · rw [he] at h; cases h
      · rw [he] at h
        simp only [List.mem_singleton] at h
        subst h
        rcases hsrc b2 hb2 with ⟨hbe, _⟩ | ⟨hb, hbne⟩
        · rw [hbe, hfst, hst]
        · exact absurd hid hbne
  · intro c hc b2 hb2 hcell
    obtain ⟨b, hb, _, hcellb, _⟩ := hcellf b2 hb2
    rw [hcellb] at hcell
    exact hInv.hoverOcc c hc b hb hcell
  · intro r2 hr2 b2 hb2 hcell
    rcases (hmemT r2).mp hr2 with h | h
    · obtain ⟨b, hb, hid, hcellb, _⟩ := hcellf b2 hb2
      rw [hcellb] at hcell
      rcases hInv.timeoutHover r2 h b hb hcell with hx | hx
      · exact Or.inl (by rw [hid]; exact hx)
      · exact Or.inr hx
    · rcases htmo with he | ⟨he, _, _⟩
      · rw [he] at h; cases h
      · rw [he] at h
        simp only [List.mem_singleton] at h
        subst h
        rcases hsrc b2 hb2 with ⟨hbe, hbid⟩ | ⟨hb, hbne⟩
        · exact Or.inl hbid
        · exfalso
          have hco : cellOf b2 = cellOf o := hcell
          exact hInv.cellNodup b2 hb o ho hbne hco
  · intro id2 hid2
    dsimp only
    have hlt := hInv.idLt o ho
    have hid2b : s.nextId ≤ id2 := hid2
    rw [hfiltNe id2 (by omega)]
    exact hInv.traceNew id2 hid2b
  · intro b2 hb2
    dsimp only
    rcases hsrc b2 hb2 with ⟨hbe, hbid⟩ | ⟨hb, hbne⟩
    · have hstb2 : b2.status = st2 := by rw [hbe, hfst]
      have hpend := (hInv.traceStatus o ho).1 hp
      have hfo : filt (if o.id ∈ s.rendered then s.events ++ [(o.id, k)]
          else s.events) o.id = filt s.events o.id ++ [(o.id, k)] ∨
          filt (if o.id ∈ s.rendered then s.events ++ [(o.id, k)]
          else s.events) o.id = filt s.events o.id := by
        by_cases hr : o.id ∈ s.rendered
        · rw [if_pos hr, filt_append_self]; exact Or.inl rfl
        · rw [if_neg hr]; exact Or.inr rfl
      refine ⟨fun hps => ?_, fun hts => ?_, fun hes => ?_⟩
      · exfalso; rw [hstb2] at hps; exact hst2ne hps
      · rw [hstb2] at hts
        rcases kok with ⟨h1, h2⟩ | ⟨h1, h2⟩
        · subst h2
          rw [hbid]
          rcases hfo with hx | hx
          · rw [hx, hpend]; exact Or.inr rfl
          · rw [hx, hpend]; exact Or.inl rfl
        · exfalso; rw [hts] at h1; simp at h1
      · rw [hstb2] at hes
        rcases kok with ⟨h1, h2⟩ | ⟨h1, h2⟩
        · exfalso; rw [hes] at h1; simp at h1
        · subst h2
          rw [hbid]
          rcases hfo with hx | hx
          · rw [hx, hpend]; exact Or.inr rfl
          · rw [hx, hpend]; exact Or.inl rfl
    · rw [hfiltNe b2.id hbne]
      exact hInv.traceStatus b2 hb
  · intro id2 hid2 hdead
    dsimp only
    have hone : (f o).id = o.id := hfid o
    have hdo : id2 ≠ o.id := by
      intro he
      exact hdead (f o) hfo_mem (by rw [hone, he])
    rw [hfiltNe id2 hdo]
    refine hInv.traceDead id2 hid2 ?_
    intro b hb hbid
    by_cases hio : b.id = o.id
    · exact hdo (by rw [← hbid, hio])
    · refine hdead b ?_ hbid
      rw [mem_setBoxStatus]
      exact ⟨b, hb, by rw [if_neg hio]⟩

/-- Invariant preservation for the cleanup branch of the tick loop: a
non-pending box past its `t1` is removed together with its cell. -/
theorem inv_tickCleanup (stepMs : ℚ) (s : GridState) (o : OrderBox)
    (hInv : Inv stepMs s) (ho : o ∈ s.orders) (hp : o.status ≠ .pending) :
    Inv stepMs { s with orders := s.orders.filter (fun b => b.id ≠ o.id),
                        occupied := s.occupied.filter
                          (fun c => c ≠ (o.i, o.j)) } := by
  have hmem : ∀ b : OrderBox,
      b ∈ s.orders.filter (fun b => b.id ≠ o.id) ↔
        b ∈ s.orders ∧ b.id ≠ o.id := by
    intro b; simp
  have hmemc : ∀ c : ℤ × ℤ,
      c ∈ s.occupied.filter (fun c => c ≠ (o.i, o.j)) ↔
        c ∈ s.occupied ∧ c ≠ (o.i, o.j) := by
    intro c; simp
  have hcello : cellOf o = (o.i, o.j) := rfl
  refine { idLt := ?_, idNodup := ?_, cellNodup := ?_, t1Eq := ?_,
           occOrPast := ?_, timeoutPast := hInv.timeoutPast,
           timeoutIdLt := hInv.timeoutIdLt, timeoutStatus := ?_,
           hoverOcc := ?_, timeoutHover := ?_, traceNew := hInv.traceNew,
           traceStatus := ?_, traceDead := ?_ }
  · intro b hb; exact hInv.idLt b ((hmem b).mp hb).1
  · have : List.Sublist
        ((s.orders.filter (fun b => b.id ≠ o.id)).map (fun b => b.id))
        (s.orders.map (fun b => b.id)) :=
      List.Sublist.map _ (List.filter_sublist _)
    exact hInv.idNodup.sublist this
  · intro b1 h1 b2 h2 hne
    exact hInv.cellNodup b1 ((hmem b1).mp h1).1 b2 ((hmem b2).mp h2).1 hne
  · intro b hb; exact hInv.t1Eq b ((hmem b).mp hb).1
  · intro b hb
    obtain ⟨hbs, hbne⟩ := (hmem b).mp hb
    rcases hInv.occOrPast b hbs with hc | hpast
    · refine Or.inl ((hmemc _).mpr ⟨hc, ?_⟩)
      rw [← hcello]
      exact hInv.cellNodup b hbs o ho hbne
    · exact Or.inr hpast
  · intro r hr b hb hid
    exact hInv.timeoutStatus r hr b ((hmem b).mp hb).1 hid
  · intro c hc b hb hcell
    obtain ⟨hbs, hbne⟩ := (hmem b).mp hb
    refine (hmemc c).mpr ⟨hInv.hoverOcc c hc b hbs hcell, ?_⟩
    rw [← hcell, ← hcello]
    exact hInv.cellNodup b hbs o ho hbne
  · intro r hr b hb hcell
    exact hInv.timeoutHover r hr b ((hmem b).mp hb).1 hcell
  · intro b hb; exact hInv.traceStatus b ((hmem b).mp hb).1
  · intro id2 hid2 hdead
    by_cases holddead : ∀ b ∈ s.orders, b.id ≠ id2
    · exact hInv.traceDead id2 hid2 holddead
    · push_neg at holddead
      obtain ⟨b, hb, hbid⟩ := holddead
      have hbo : b.id = o.id := by
        by_contra hne
        exact hdead b ((hmem b).mpr ⟨hb, hne⟩) hbid
      have hbeq : b = o :=
        eq_of_mem_of_id_eq s.orders hInv.idNodup o b ho hb hbo
      subst hbeq
      rw [← hbid]
      rcases hst : b.status with _ | _ | _
      · exact absurd hst hp
      · rcases (hInv.traceStatus b hb).2.1 hst with h | h
        · exact Or.inl h
        · exact Or.inr (Or.inl h)
      · rcases (hInv.traceStatus b hb).2.2 hst with h | h
        · exact Or.inl h
        · exact Or.inr (Or.inr h)

/-- Invariant preservation for one iteration of the tick loop. -/
theorem inv_tickBox (stepMs price : ℚ) (s : GridState) (o : OrderBox)
    (hstep : 0 < stepMs) (hInv : Inv stepMs s) (ho : o ∈ s.orders) :
    Inv stepMs (tickBox price s o) := by
  unfold tickBox
  by_cases hp : o.status = .pending
  · rw [if_pos hp]
    by_cases hc : (o.t0 ≤ s.now ∧ s.now ≤ o.t1) ∧
        (min o.p0 o.p1 ≤ price ∧ price ≤ max o.p0 o.p1)
    · rw [if_pos hc]
      have h := inv_tickStatusUpdate stepMs s o hInv ho hp
        (markTriggered s.now) .triggered .trigger
        (fun _ => rfl) (fun _ => rfl) (fun _ => rfl) (fun _ => rfl)
        [] (Or.inl rfl) (Or.inl ⟨rfl, rfl⟩)
      simpa using h
    · rw [if_neg hc]
      by_cases ht : o.t1 < s.now
      · rw [if_pos ht]
        exact inv_tickStatusUpdate stepMs s o hInv ho hp
          markExpired .expired .expire
          (fun _ => rfl) (fun _ => rfl) (fun _ => rfl) (fun _ => rfl)
          [(o.id, o.i, o.j)] (Or.inr ⟨rfl, ht, rfl⟩) (Or.inr ⟨rfl, rfl⟩)
      · rw [if_neg ht]; exact hInv
  · rw [if_neg hp]
    by_cases ht : o.t1 < s.now
    · rw [if_pos ht]
      exact inv_tickCleanup stepMs s o hInv ho hp
    · rw [if_neg ht]; exact hInv

/-- One tick-loop iteration only touches the map entry (and the cell) of its
own snapshot element. -/
theorem tickBox_mem_other (price : ℚ) (s : GridState) (o b : OrderBox)
    (hb : b ∈ s.orders) (hne : b.id ≠ o.id) :
    b ∈ (tickBox price s o).orders := by
  unfold tickBox
  by_cases hp : o.status = .pending
  · rw [if_pos hp]
    by_cases hc : (o.t0 ≤ s.now ∧ s.now ≤ o.t1) ∧
        (min o.p0 o.p1 ≤ price ∧ price ≤ max o.p0 o.p1)
    · rw [if_pos hc]
      dsimp only
      rw [mem_setBoxStatus]
      exact ⟨b, hb, by rw [if_neg hne]⟩
    · rw [if_neg hc]
      by_cases ht : o.t1 < s.now
      · rw [if_pos ht]
        dsimp only
        rw [mem_setBoxStatus]
        exact ⟨b, hb, by rw [if_neg hne]⟩
      · rw [if_neg ht]; exact hb
  · rw [if_neg hp]
    by_cases ht : o.t1 < s.now
    · rw [if_pos ht]
      dsimp only
      simp only [List.mem_filter]
      exact ⟨hb, by simp [hne]⟩
    · rw [if_neg ht]; exact hb

theorem inv_foldl_tickBox (stepMs price : ℚ) (hstep : 0 < stepMs) :
    ∀ (todo : List OrderBox) (s : GridState), Inv stepMs s →
    (∀ o ∈ todo, o ∈ s.orders) → (todo.map (fun o => o.id)).Nodup →
    Inv stepMs (todo.foldl (tickBox price) s) := by
  intro todo
  induction todo with
  | nil => intro s hInv _ _; exact hInv
  | cons o rest ih =>
    intro s hInv hmem hnd
    have ho := hmem o (List.mem_cons_self _ _)
    have hInv2 := inv_tickBox stepMs price s o hstep hInv ho
    have hnd2 : o.id ∉ rest.map (fun b => b.id) ∧
        (rest.map (fun b => b.id)).Nodup := by
      rw [List.map_cons] at hnd
      exact List.nodup_cons.mp hnd
    refine ih (tickBox price s o) hInv2 ?_ hnd2.2
    intro b hbr
    have hbne : b.id ≠ o.id := by
      intro he
      exact hnd2.1 (by rw [← he]; exact List.mem_map_of_mem _ hbr)
    exact tickBox_mem_other price s o b (hmem b (List.mem_cons_of_mem _ hbr))
      hbne

/-- Invariant preservation for a whole tick of the lifecycle loop. -/
theorem inv_tick (stepMs price : ℚ) (s : GridState) (hstep : 0 < stepMs)
    (hInv : Inv stepMs s) : Inv stepMs (tick price s) :=
  inv_foldl_tickBox stepMs price hstep s.orders s hInv (fun _ ho => ho)
    hInv.idNodup

/-- The invariant is preserved by every controller transition. -/
theorem inv_step (stepMs : ℚ) (hstep : 0 < stepMs) (s s2 : GridState)
    (hInv : Inv stepMs s) (hs : Step stepMs s s2) : Inv stepMs s2 := by
  cases hs with
  | stepAdvance t h => exact inv_advance stepMs s t h hInv
  | stepTick price => exact inv_tick stepMs price s hstep hInv
  | stepClick t p => exact inv_click stepMs t p s hstep hInv
  | stepCreateAt t p => exact inv_createAt stepMs t p s hstep hInv
  | stepHoverMove t p => exact inv_hoverMove stepMs t p s hstep hInv
  | stepHoverLeave => exact inv_hoverLeave stepMs s hInv
  | stepRender => exact inv_render stepMs s hInv
  | stepFireTimeout r h => exact inv_fireTimeout stepMs s r h hInv
  | stepSetPriceStep q h => exact inv_setPriceStep stepMs q s hInv

/-- Every reachable controller state satisfies the invariant. -/
theorem inv_reachable (stepMs : ℚ) (hstep : 0 < stepMs) (s : GridState)
    (hr : Reachable stepMs s) : Inv stepMs s := by
  induction hr with
  | init => exact inv_gridInit stepMs
  | step hr hs ih => exact inv_step stepMs hstep _ _ ih hs

/-- `orders.get(id)` on the id-keyed map view. -/
def findBox (s : GridState) (id : ℕ) : Option OrderBox :=
  s.orders.find? (fun b => b.id = id)

theorem find?_eq_self (l : List OrderBox) (o : OrderBox) (ho : o ∈ l)
    (hnd : (l.map (fun b => b.id)).Nodup) :
    l.find? (fun b => b.id = o.id) = some o := by
  induction l with
  | nil => cases ho
  | cons b t ih =>
    rw [List.map_cons] at hnd
    have hnd2 := List.nodup_cons.mp hnd
    by_cases hb : b.id = o.id
    · rw [List.find?_cons_of_pos _ (by simp [hb])]
      rcases List.mem_cons.mp ho with he | ht
      · rw [he]
      · exfalso
        refine hnd2.1 ?_
        rw [hb]
        exact List.mem_map_of_mem _ ht
    · rw [List.find?_cons_of_neg _ (by simp [hb])]
      rcases List.mem_cons.mp ho with he | ht
      · exact absurd (by rw [he]) hb
      · exact ih ht hnd2.2

theorem find?_setBoxStatus (l : List OrderBox) (id : ℕ)
    (f : OrderBox → OrderBox) (hfid : ∀ b, (f b).id = b.id) :
    (setBoxStatus l id f).find? (fun b => b.id = id) =
      (l.find? (fun b => b.id = id)).map f := by
  induction l with
  | nil => rfl
  | cons b t ih =>
    have hcons : setBoxStatus (b :: t) id f =
        (if b.id = id then f b else b) :: setBoxStatus t id f := rfl
    rw [hcons]
    by_cases hb : b.id = id
    · rw [if_pos hb]
      rw [List.find?_cons_of_pos _ (by simp [hfid, hb]),
          List.find?_cons_of_pos _ (by simp [hb])]
      rfl
    · rw [if_neg hb]
      rw [List.find?_cons_of_neg _ (by simp [hb]),
          List.find?_cons_of_neg _ (by simp [hb])]
      exact ih

/-- C4: on a tick at time `now` with price `price`, a pending box becomes
`triggered` (with `firedAt = now`) exactly when `t0 ≤ now ≤ t1` and
`min(p0,p1) ≤ price ≤ max(p0,p1)`, and becomes `expired` exactly when
`now > t1` and the trigger condition fails; the trigger check runs first, so
it takes precedence at the `now = t1` boundary. -/
theorem trigger_expiry_decision (price : ℚ) (s : GridState) (o : OrderBox)
    (ho : o ∈ s.orders) (hnd : (s.orders.map (fun b => b.id)).Nodup)
    (hp : o.status = .pending) :
    (findBox (tickBox price s o) o.id = some (markTriggered s.now o) ↔
      (o.t0 ≤ s.now ∧ s.now ≤ o.t1 ∧
       min o.p0 o.p1 ≤ price ∧ price ≤ max o.p0 o.p1)) ∧
    (findBox (tickBox price s o) o.id = some (markExpired o) ↔
      (o.t1 < s.now ∧ ¬(o.t0 ≤ s.now ∧ s.now ≤ o.t1 ∧
       min o.p0 o.p1 ≤ price ∧ price ≤ max o.p0 o.p1))) := by
  have hflat : ((o.t0 ≤ s.now ∧ s.now ≤ o.t1) ∧
      (min o.p0 o.p1 ≤ price ∧ price ≤ max o.p0 o.p1)) ↔
      (o.t0 ≤ s.now ∧ s.now ≤ o.t1 ∧
       min o.p0 o.p1 ≤ price ∧ price ≤ max o.p0 o.p1) := by tauto
  by_cases hc : (o.t0 ≤ s.now ∧ s.now ≤ o.t1) ∧
      (min o.p0 o.p1 ≤ price ∧ price ≤ max o.p0 o.p1)
  · have hstate : tickBox price s o =
        { s with orders := setBoxStatus s.orders o.id (markTriggered s.now),
                 events := if o.id ∈ s.rendered then
                     s.events ++ [(o.id, EventKind.trigger)]
                   else s.events } := by
      unfold tickBox; rw [if_pos hp, if_pos hc]
    have hfind : findBox (tickBox price s o) o.id =
        some (markTriggered s.now o) := by
      rw [hstate]
      unfold findBox
      dsimp only
      rw [find?_setBoxStatus s.orders o.id (markTriggered s.now)
            (fun _ => rfl),
          find?_eq_self s.orders o ho hnd]
      rfl
    constructor
    · exact iff_of_true hfind (hflat.mp hc)
    · refine iff_of_false ?_ ?_
      · intro h
        rw [hfind] at h
        have := congrArg OrderBox.status (Option.some_inj.mp h)
        simp [markTriggered, markExpired] at this
      · intro h
        exact h.2 (hflat.mp hc)
  · by_cases ht : o.t1 < s.now
    · have hstate : tickBox price s o =
          { s with orders := setBoxStatus s.orders o.id markExpired,
                   timeouts := s.timeouts ++ [(o.id, o.i, o.j)],
                   events := if o.id ∈ s.rendered then
                       s.events ++ [(o.id, EventKind.expire)]
                     else s.events } := by
        unfold tickBox; rw [if_pos hp, if_neg hc, if_pos ht]
      have hfind : findBox (tickBox price s o) o.id =
          some (markExpired o) := by
        rw [hstate]
        unfold findBox
        dsimp only
        rw [find?_setBoxStatus s.orders o.id markExpired (fun _ => rfl),
            find?_eq_self s.orders o ho hnd]
        rfl
      constructor
      · refine iff_of_false ?_ ?_
        · intro h
          rw [hfind] at h
          have := congrArg OrderBox.status (Option.some_inj.mp h)
          simp [markTriggered, markExpired] at this
        · intro h
          exact hc (hflat.mpr h)
      · exact iff_of_true hfind ⟨ht, fun h => hc (hflat.mpr h)⟩
    · have hstate : tickBox price s o = s := by
        unfold tickBox; rw [if_pos hp, if_neg hc, if_neg ht]
      have hfind : findBox (tickBox price s o) o.id = some o := by
        rw [hstate]
        exact find?_eq_self s.orders o ho hnd
      constructor
      · refine iff_of_false ?_ ?_
        · intro h
          rw [hfind] at h
          have := congrArg OrderBox.status (Option.some_inj.mp h)
          rw [hp] at this
          simp [markTriggered] at this
        · intro h
          exact hc (hflat.mpr h)
      · refine iff_of_false ?_ ?_
        · intro h
          rw [hfind] at h
          have := congrArg OrderBox.status (Option.some_inj.mp h)
          rw [hp] at this
          simp [markExpired] at this
        · intro h
          exact ht h.1

/-- The single pending box created by a click (or `createAt`) at cell
`(0, 0)` with `stepMs = 2` and the default price step. -/
def boxZero : OrderBox :=
  { id := 0, i := 0, j := 0, t0 := -1, t1 := 1, p0 := -(1 / 4 : ℚ),
    p1 := 1 / 4, status := .pending, firedAt := none }

/-- The state after one box creation at `(0, 0)` from the fresh controller. -/
def oneBoxState : GridState :=
  { now := 0, priceStep := 1 / 2, orders := [boxZero], occupied := [(0, 0)],
    timeouts := [], hover := none, rendered := [], nextId := 1,
    events := [(0, .create)] }

theorem createAt_initState_eq : createAt 2 0 0 initState = oneBoxState := by
  norm_num [createAt, initState, addBox, mkBox, snapCellI, oneBoxState,
    boxZero]

theorem click_initState_eq : click 2 0 0 initState = oneBoxState := by
  norm_num [click, initState, addBox, mkBox, snapCellI, oneBoxState, boxZero]

/-- C2 (amended): in every reachable controller state, no two boxes in the
order map occupy the same `(i, j)` cell, and a creation (via `createAt`, via
a click through the hover preview, or via a fresh-pointer click) targeting an
occupied cell is a no-op.  (The claim's third conjunct — that a cell is
released only when its box is removed — fails; see the counterexample.) -/
theorem occupancy_invariant (stepMs : ℚ) (hstep : 0 < stepMs)
    (s : GridState) (hr : Reachable stepMs s) :
    (∀ o1 ∈ s.orders, ∀ o2 ∈ s.orders, o1.id ≠ o2.id →
      cellOf o1 ≠ cellOf o2) ∧
    (∀ t p : ℚ,
      (snapCellI stepMs s.now t, round (p / s.priceStep)) ∈ s.occupied →
      createAt stepMs t p s = s) ∧
    (∀ c, s.hover = some c → c ∈ s.occupied →
      ∀ t p : ℚ, click stepMs t p s = s) ∧
    (∀ t p : ℚ, s.hover = none → ¬ t < s.now →
      (snapCellI stepMs s.now t, round (p / s.priceStep)) ∈ s.occupied →
      click stepMs t p s = s) := by
  have hInv := inv_reachable stepMs hstep s hr
  refine ⟨hInv.cellNodup, ?_, ?_, ?_⟩
  · intro t p hocc
    unfold createAt
    rw [if_pos hocc]
  · intro c hc hocc t p
    obtain ⟨i, j⟩ := c
    unfold click
    rw [hc]
    dsimp only
    rw [if_pos hocc]
  · intro t p hh hlt hocc
    unfold click
    rw [hh]
    dsimp only
    rw [if_neg hlt, if_pos hocc]

/-- Witness for C2 (amended): a second creation targeting the occupied cell
`(0, 0)` is a no-op. -/
theorem occupancy_invariant_witness :
    createAt 2 0 0 (createAt 2 0 0 initState) = createAt 2 0 0 initState := by
  have h := occupancy_invariant 2 (by norm_num) (createAt 2 0 0 initState)
    (Reachable.step Reachable.init (Step.stepCreateAt initState 0 0))
  refine h.2.1 0 0 ?_
  rw [createAt_initState_eq]
  norm_num [snapCellI, oneBoxState]

/-- C3 (amended): in every reachable state, the event subtrace of any box id
is one of `[]`, `[create]`, `[create, trigger]`, `[create, expire]` — the
`create` event precedes any terminal event and no box ever emits both
`trigger` and `expire`; but a terminal event can be skipped entirely when the
box's rect is not yet rendered, so a completed box may have emitted only
`[create]` (see the counterexample). -/
theorem exclusive_transition (stepMs : ℚ) (hstep : 0 < stepMs)
    (s : GridState) (hr : Reachable stepMs s) (id : ℕ) :
    filt s.events id = [] ∨ filt s.events id = [(id, .create)] ∨
    filt s.events id = [(id, .create), (id, .trigger)] ∨
    filt s.events id = [(id, .create), (id, .expire)] := by
  have hInv := inv_reachable stepMs hstep s hr
  by_cases hnew : s.nextId ≤ id
  · exact Or.inl (hInv.traceNew id hnew)
  · push_neg at hnew
    by_cases hdead : ∀ o ∈ s.orders, o.id ≠ id
    · rcases hInv.traceDead id hnew hdead with h | h | h
      · exact Or.inr (Or.inl h)
      · exact Or.inr (Or.inr (Or.inl h))
      · exact Or.inr (Or.inr (Or.inr h))
    · push_neg at hdead
      obtain ⟨o, ho, hoid⟩ := hdead
      rcases hst : o.status with _ | _ | _
      · have h := (hInv.traceStatus o ho).1 hst
        rw [hoid] at h
        exact Or.inr (Or.inl h)
      · rcases (hInv.traceStatus o ho).2.1 hst with h | h <;> rw [hoid] at h
        · exact Or.inr (Or.inl h)
        · exact Or.inr (Or.inr (Or.inl h))
      · rcases (hInv.traceStatus o ho).2.2 hst with h | h <;> rw [hoid] at h
        · exact Or.inr (Or.inl h)
        · exact Or.inr (Or.inr (Or.inr h))

/-- Witness for C3 (amended) at the one-box state. -/
theorem exclusive_transition_witness :
    filt oneBoxState.events 0 = [] ∨
    filt oneBoxState.events 0 = [(0, .create)] ∨
    filt oneBoxState.events 0 = [(0, .create), (0, .trigger)] ∨
    filt oneBoxState.events 0 = [(0, .create), (0, .expire)] := by
  have hr : Reachable 2 oneBoxState := by
    have h : Reachable 2 (createAt 2 0 0 initState) :=
      Reachable.step Reachable.init (Step.stepCreateAt initState 0 0)
    rwa [createAt_initState_eq] at h
  exact exclusive_transition 2 (by norm_num) oneBoxState hr 0

/-- Witness for C4 at the one-box state with price `0` inside the band. -/
theorem trigger_expiry_decision_witness :
    findBox (tickBox 0 oneBoxState boxZero) boxZero.id =
      some (markTriggered oneBoxState.now boxZero) := by
  have h := trigger_expiry_decision 0 oneBoxState boxZero
    (List.mem_singleton.mpr rfl) (by simp [oneBoxState]) rfl
  refine h.1.mpr ?_
  norm_num [boxZero, oneBoxState]

/-- `oneBoxState` after a tick at price 0 (inside the band, time inside
`[t0, t1]`): the box is triggered, but with no rect rendered yet the
`trigger` event is skipped. -/
def trigBoxState : GridState :=
  { now := 0, priceStep := 1 / 2,
    orders := [{ id := 0, i := 0, j := 0, t0 := -1, t1 := 1,
                 p0 := -(1 / 4 : ℚ), p1 := 1 / 4, status := .triggered,
                 firedAt := some 0 }],
    occupied := [(0, 0)], timeouts := [], hover := none, rendered := [],
    nextId := 1, events := [(0, .create)] }

theorem tick_oneBoxState_eq : tick 0 oneBoxState = trigBoxState := by
  norm_num [tick, oneBoxState, boxZero, tickBox, setBoxStatus,
    markTriggered, trigBoxState]

/-- The silently-triggered box is cleaned up once `now > t1`, leaving only
its `create` event behind. -/
def goneBoxState : GridState :=
  { now := 2, priceStep := 1 / 2, orders := [], occupied := [],
    timeouts := [], hover := none, rendered := [], nextId := 1,
    events := [(0, .create)] }

theorem tick_trigBoxState_eq :
    tick 0 { trigBoxState with now := 2 } = goneBoxState := by
  norm_num [tick, trigBoxState, tickBox, goneBoxState]
  all_goals decide

/-- C3 (counterexample): a box created by a click and triggered on the very
next tick, before any render pass has drawn its rect, emits no `trigger`
event; once past `t1` it is removed, having produced the event sequence
`[create]` — neither `[create, trigger]` nor `[create, expire]`. -/
theorem exclusive_transition_fails :
    Reachable 2 goneBoxState ∧
    0 < goneBoxState.nextId ∧
    (∀ o ∈ goneBoxState.orders, o.id ≠ 0) ∧
    filt goneBoxState.events 0 = [(0, .create)] ∧
    filt goneBoxState.events 0 ≠ [(0, .create), (0, .trigger)] ∧
    filt goneBoxState.events 0 ≠ [(0, .create), (0, .expire)] := by
  refine ⟨?_, by decide, by decide, by decide, by decide, by decide⟩
  have r1 : Reachable 2 oneBoxState := by
    have h : Reachable 2 (click 2 0 0 initState) :=
      Reachable.step Reachable.init (Step.stepClick initState 0 0)
    rwa [click_initState_eq] at h
  have r2 : Reachable 2 trigBoxState := by
    have h : Reachable 2 (tick 0 oneBoxState) :=
      Reachable.step r1 (Step.stepTick oneBoxState 0)
    rwa [tick_oneBoxState_eq] at h
  have r3 : Reachable 2 { trigBoxState with now := 2 } :=
    Reachable.step r2 (Step.stepAdvance trigBoxState 2
      (by norm_num [trigBoxState]))
  have r4 : Reachable 2 (tick 0 { trigBoxState with now := 2 }) :=
    Reachable.step r3 (Step.stepTick _ 0)
  rwa [tick_trigBoxState_eq] at r4

/-- The state after a hover preview lands on the free future cell `(0, 0)`. -/
def hovState : GridState :=
  { now := 0, priceStep := 1 / 2, orders := [], occupied := [],
    timeouts := [], hover := some (0, 0), rendered := [], nextId := 0,
    events := [] }

theorem hoverMove_initState_eq : hoverMove 2 0 0 initState = hovState := by
  norm_num [hoverMove, initState, snapCellI, hovState]

/-- `hovState` after `createAt` claims the hovered cell (`createAt` does not
clear the hover preview). -/
def hovBoxState : GridState :=
  { now := 0, priceStep := 1 / 2, orders := [boxZero],
    occupied := [(0, 0)], timeouts := [], hover := some (0, 0),
    rendered := [], nextId := 1, events := [(0, .create)] }

theorem createAt_hovState_eq : createAt 2 0 0 hovState = hovBoxState := by
  norm_num [createAt, hovState, addBox, mkBox, snapCellI, hovBoxState,
    boxZero]

/-- The box expires at `now = 2 > t1` (scheduling its removal timer) while
the stale hover preview survives. -/
def hovExpState : GridState :=
  { now := 2, priceStep := 1 / 2,
    orders := [{ id := 0, i := 0, j := 0, t0 := -1, t1 := 1,
                 p0 := -(1 / 4 : ℚ), p1 := 1 / 4, status := .expired,
                 firedAt := none }],
    occupied := [(0, 0)], timeouts := [(0, 0, 0)], hover := some (0, 0),
    rendered := [], nextId := 1, events := [(0, .create)] }

theorem tick_hovBoxState_eq :
    tick 100 { hovBoxState with now := 2 } = hovExpState := by
  norm_num [tick, hovBoxState, boxZero, tickBox, setBoxStatus, markExpired,
    hovExpState]

/-- The next tick removes the expired box and frees the cell, while the 380
ms removal timer is still pending. -/
def hovCleanState : GridState :=
  { now := 2, priceStep := 1 / 2, orders := [], occupied := [],
    timeouts := [(0, 0, 0)], hover := some (0, 0), rendered := [],
    nextId := 1, events := [(0, .create)] }

theorem tick_hovExpState_eq : tick 100 hovExpState = hovCleanState := by
  norm_num [tick, hovExpState, tickBox, hovCleanState]
  all_goals decide

/-- The second box at cell `(0, 0)`, created through the stale hover. -/
def boxOne : OrderBox :=
  { id := 1, i := 0, j := 0, t0 := -1, t1 := 1, p0 := -(1 / 4 : ℚ),
    p1 := 1 / 4, status := .pending, firedAt := none }

/-- A stale click consumes the surviving hover preview and re-claims the
freed cell `(0, 0)` for a second box. -/
def staleClickState : GridState :=
  { now := 2, priceStep := 1 / 2, orders := [boxOne], occupied := [(0, 0)],
    timeouts := [(0, 0, 0)], hover := none, rendered := [], nextId := 2,
    events := [(0, .create), (1, .create)] }

theorem click_hovCleanState_eq :
    click 2 0 0 hovCleanState = staleClickState := by
  norm_num [click, hovCleanState, addBox, mkBox, staleClickState, boxOne]

/-- The first box's removal timer now fires and releases cell `(0, 0)` even
though the second box still occupies it. -/
def staleFiredState : GridState :=
  { now := 2, priceStep := 1 / 2, orders := [boxOne], occupied := [],
    timeouts := [], hover := none, rendered := [], nextId := 2,
    events := [(0, .create), (1, .create)] }

theorem fireTimeout_staleClickState_eq :
    fireTimeout (0, 0, 0) staleClickState = staleFiredState := by
  norm_num [fireTimeout, staleClickState, staleFiredState]
  all_goals decide

/-- C2 (counterexample): a reachable state in which a live box's cell is not
occupied — the expired first box's delayed removal timer released cell
`(0, 0)` after a stale hover click had already re-claimed it for a second,
still-present box.  This refutes "a cell is released only when its box is
removed". -/
theorem occupancy_release_fails :
    Reachable 2 staleFiredState ∧
    ∃ o ∈ staleFiredState.orders, cellOf o ∉ staleFiredState.occupied := by
  constructor
  · have r1 : Reachable 2 hovState := by
      have h : Reachable 2 (hoverMove 2 0 0 initState) :=
        Reachable.step Reachable.init (Step.stepHoverMove initState 0 0)
      rwa [hoverMove_initState_eq] at h
    have r2 : Reachable 2 hovBoxState := by
      have h : Reachable 2 (createAt 2 0 0 hovState) :=
        Reachable.step r1 (Step.stepCreateAt hovState 0 0)
      rwa [createAt_hovState_eq] at h
    have r3 : Reachable 2 { hovBoxState with now := 2 } :=
      Reachable.step r2 (Step.stepAdvance hovBoxState 2
        (by norm_num [hovBoxState]))
    have r4 : Reachable 2 hovExpState := by
      have h : Reachable 2 (tick 100 { hovBoxState with now := 2 }) :=
        Reachable.step r3 (Step.stepTick _ 100)
      rwa [tick_hovBoxState_eq] at h
    have r5 : Reachable 2 hovCleanState := by
      have h : Reachable 2 (tick 100 hovExpState) :=
        Reachable.step r4 (Step.stepTick hovExpState 100)
      rwa [tick_hovExpState_eq] at h
    have r6 : Reachable 2 staleClickState := by
      have h : Reachable 2 (click 2 0 0 hovCleanState) :=
        Reachable.step r5 (Step.stepClick hovCleanState 0 0)
      rwa [click_hovCleanState_eq] at h
    have r7 : Reachable 2 (fireTimeout (0, 0, 0) staleClickState) :=
      Reachable.step r6 (Step.stepFireTimeout staleClickState (0, 0, 0)
        (List.mem_singleton.mpr rfl))
    rwa [fireTimeout_staleClickState_eq] at r7
  · exact ⟨boxOne, List.mem_singleton.mpr rfl, List.not_mem_nil _⟩

end LiveOrders
